import Mathlib

/-!
# Feed-forward network core of liquid-dsp (src/ann/src/ann.nodes.c)

A shallow embedding of ann_create, ann_evaluate, ann_train, ann_train_bp,
ann_compute_rmse, ann_ga_search_callback and ann_train_ga.

Conventions of the embedding:

* unsigned int is a natural number below 2^32 and every unsigned operation of
  the C code is reduced modulo 2^32 (uadd, umul, usub);
* float values are elements of a type F carrying the single-precision
  operations the code uses (class FloatOps); nothing is assumed about them;
* a pointer into q->w or q->y_hat is the offset of its first element; an access that
  leaves an array, or a layer index outside the layer array, makes a function of the
  embedding return none;
* functions of the repository whose bodies live in other files
  (annlayer_evaluate, annlayer_compute_bp_error, annlayer_train, ga_search_*)
  are parameters of the embedding (structures layer_ops and ga_ops).
-/

namespace LiquidAnn

/-! ## Machine arithmetic -/

/-- Number of values of the C type unsigned int (32 bits). -/
def UINT_RANGE : Nat := 2 ^ 32

/-- Unsigned addition. -/
def uadd (a b : Nat) : Nat := (a + b) % UINT_RANGE

/-- Unsigned multiplication. -/
def umul (a b : Nat) : Nat := (a * b) % UINT_RANGE

/-- Unsigned subtraction. -/
def usub (a b : Nat) : Nat := (a % UINT_RANGE + (UINT_RANGE - b % UINT_RANGE)) % UINT_RANGE

/-- The constant LIQUID_ANN_MAX_NETWORK_SIZE of ann.nodes.c. -/
def LIQUID_ANN_MAX_NETWORK_SIZE : Nat := 1024

/-- Single-precision operations used by the code; F stands for the C type float. -/
class FloatOps (F : Type) where
  /-- The float denoted by a decimal literal such as 0.1f. -/
  lit : ℚ → F
  /-- The conversion (float)i of an unsigned int. -/
  ofUInt : Nat → F
  add : F → F → F
  sub : F → F → F
  mul : F → F → F
  div : F → F → F
  sqrtf : F → F
  lt : F → F → Bool

/-! ## Data model -/

/-- Activation function selector handed to annlayer_create; ann_create only uses the
tanh selector. -/
inductive ann_activation_function where
  | LIQUID_ANN_AF_TANH
  deriving DecidableEq, Repr

/-- Modelled from the spec: the layer object built by annlayer_create, whose source
(the annlayer module) is not part of the sources at hand. It keeps the three borrowed views it is
given (as offsets into q->w and q->y_hat), its sizes and flags, and owns the error
array that ann_train_bp reads through layers[n+1]->error. -/
structure annlayer (F : Type) where
  w : Nat
  x : Nat
  y : Nat
  num_inputs : Nat
  num_outputs : Nat
  is_input_layer : Bool
  is_output_layer : Bool
  activation_func : ann_activation_function
  mu : F
  error : List F

/-- Modelled from the spec: annlayer_create (the annlayer module is not part of the
sources at hand) stores its arguments and allocates an error array with one entry per output. -/
def annlayer_create {F : Type} [FloatOps F] (w x y num_inputs num_outputs : Nat)
    (is_input_layer is_output_layer : Bool) (af : ann_activation_function) (mu : F) :
    annlayer F :=
  { w := w, x := x, y := y, num_inputs := num_inputs, num_outputs := num_outputs,
    is_input_layer := is_input_layer, is_output_layer := is_output_layer,
    activation_func := af, mu := mu,
    error := List.replicate num_outputs (FloatOps.lit 0) }

/-- The struct ann_s. The field structure_ is the C field named structure. -/
structure ann (F : Type) where
  w : List F
  num_weights : Nat
  structure_ : List Nat
  num_inputs : Nat
  num_outputs : Nat
  num_layers : Nat
  num_nodes : Nat
  layers : List (annlayer F)
  y_hat : List F
  dw : List F

/-- The three ways ann_create prints an error and calls exit(1). -/
inductive ann_error where
  | too_few_layers
  | layer_has_no_nodes (i : Nat)
  | network_size_exceeded
  deriving DecidableEq, Repr

/-- One call of malloc made by ann_create itself, with the element count requested. -/
inductive ann_malloc where
  | ann_struct
  | structure_array (n : Nat)
  | weights (n : Nat)
  | gradient (n : Nat)
  | activation_buffer (n : Nat)
  | layer_array (n : Nat)
  deriving DecidableEq, Repr

/-- What a call of ann_create did: the mallocs it made, in order, and either the
network it returned or the error it exited with. -/
structure ann_create_result (F : Type) where
  mallocs : List ann_malloc
  result : Except ann_error (ann F)

/-! ## ann_create -/

/-- The loop of ann_create over i = 1 .. num_layers-1 that accumulates num_weights and
num_nodes; prev is structure[i-1] and the list holds structure[i], structure[i+1], ... -/
def ann_create_count : Nat → List Nat → Nat × Nat → Nat × Nat
  | _, [], acc => acc
  | prev, n :: rest, (num_weights, num_nodes) =>
      ann_create_count n rest (uadd num_weights (umul (uadd prev 1) n), uadd num_nodes n)

/-- Initial value of w[i]: (i%2 ? 1.0f : -1.0f)*0.1f*(float)i / (float)num_weights
(the assignment just before it in the source is overwritten at once). -/
def ann_initial_weight {F : Type} [FloatOps F] (num_weights i : Nat) : F :=
  FloatOps.div
    (FloatOps.mul
      (FloatOps.mul (if i % 2 ≠ 0 then FloatOps.lit 1 else FloatOps.lit (-1)) (FloatOps.lit (1 / 10)))
      (FloatOps.ofUInt i))
    (FloatOps.ofUInt num_weights)

/-- The loop of ann_create that creates the layers, from iteration i on; the list holds
structure[i], structure[i+1], ..., prev is structure[i-1] (not read when i = 0), s0 is
structure[0], and nw, nx, ny are the three running offsets. -/
def ann_create_layers {F : Type} [FloatOps F] (s0 num_layers : Nat) :
    Nat → Nat → List Nat → Nat → Nat → Nat → List (annlayer F)
  | _, _, [], _, _, _ => []
  | i, prev, n :: rest, nw, nx, ny =>
      let num_inputs := if i = 0 then 1 else prev
      let num_outputs := n
      let num_weights := umul (uadd num_inputs 1) num_outputs
      let is_input_layer := decide (i = 0)
      let is_output_layer := decide (i = usub num_layers 1)
      annlayer_create nw nx ny num_inputs num_outputs is_input_layer is_output_layer
          ann_activation_function.LIQUID_ANN_AF_TANH (FloatOps.lit 1)
        :: ann_create_layers s0 num_layers (i + 1) n rest
            (uadd nw num_weights) (uadd nx (if i = 0 then s0 else prev)) (uadd ny num_outputs)

/-- The function ann_create. The argument is the array _structure with its
_num_layers entries; heap gives the indeterminate contents of the freshly allocated
activation buffer. -/
def ann_create {F : Type} [FloatOps F] (heap : Nat → F) (_structure : List Nat) :
    ann_create_result F :=
  let _num_layers := _structure.length
  if _num_layers < 2 then
    { mallocs := [], result := Except.error ann_error.too_few_layers }
  else
    match _structure.findIdx? (fun n => decide (n < 1)) with
    | some i => { mallocs := [], result := Except.error (ann_error.layer_has_no_nodes i) }
    | none =>
      let s0 := _structure.headD 0
      let num_inputs := s0
      let num_outputs := _structure.getLastD 0
      let counts := ann_create_count s0 _structure.tail (umul 2 s0, s0)
      let num_weights := counts.1
      let num_nodes := counts.2
      if num_weights > LIQUID_ANN_MAX_NETWORK_SIZE then
        { mallocs := [ann_malloc.ann_struct, ann_malloc.structure_array _num_layers],
          result := Except.error ann_error.network_size_exceeded }
      else
        { mallocs := [ann_malloc.ann_struct, ann_malloc.structure_array _num_layers,
                      ann_malloc.weights num_weights, ann_malloc.gradient num_weights,
                      ann_malloc.activation_buffer (uadd num_nodes num_inputs),
                      ann_malloc.layer_array _num_layers],
          result := Except.ok
            { w := (List.range num_weights).map (ann_initial_weight num_weights),
              num_weights := num_weights,
              structure_ := _structure,
              num_inputs := num_inputs,
              num_outputs := num_outputs,
              num_layers := _num_layers,
              num_nodes := num_nodes,
              layers := ann_create_layers s0 _num_layers 0 0 _structure 0 0 num_inputs,
              y_hat := (List.range (uadd num_nodes num_inputs)).map heap,
              dw := List.replicate num_weights (FloatOps.lit 0) } }

/-! ## Memory access and loops -/

/-- Reading n consecutive elements of an array from offset off; none when the read
leaves the array. -/
def read_array {α : Type} (a : List α) (off n : Nat) : Option (List α) :=
  if off + n ≤ a.length then some ((a.drop off).take n) else none

/-- Writing the elements vals into an array from offset off; none when the write
leaves the array. -/
def write_array {α : Type} (a : List α) (off : Nat) (vals : List α) : Option (List α) :=
  if off + vals.length ≤ a.length then
    some (a.take off ++ vals ++ a.drop (off + vals.length))
  else none

/-- The loop for (i = start; i < start + count; i++) body, with a body that may fail. -/
def for_loop {σ : Type} (body : Nat → σ → Option σ) : Nat → Nat → σ → Option σ
  | 0, _, s => some s
  | count + 1, i, s => (body i s).bind (for_loop body count (i + 1))

/-! ## Layer operations (bodies in the annlayer module) -/

/-- The memory a layer operation can reach through the pointers stored in the layer
object: the layer object itself, the weight buffer and the activation buffer. -/
structure layer_mem (F : Type) where
  layer : annlayer F
  w : List F
  y_hat : List F

/-- The three layer operations called by this file; their bodies are in the annlayer
module. -/
structure layer_ops (F : Type) where
  annlayer_evaluate : layer_mem F → layer_mem F
  annlayer_compute_bp_error : List F → layer_mem F → layer_mem F
  annlayer_train : F → layer_mem F → layer_mem F

/-- The argument e of annlayer_compute_bp_error: the local array error of ann_train_bp
(with its contents) or the error array of the layer of the given index. -/
inductive error_ptr (F : Type) where
  | local_error (contents : List F)
  | layer_error (n : Nat)

/-- Calls observed while the code runs: the layer operations, and the output
statements of ann_train. -/
inductive ann_event (F : Type) where
  | annlayer_evaluate (i : Nat)
  | annlayer_compute_bp_error (n : Nat) (e : error_ptr F)
  | annlayer_train (i : Nat) (rate : F)
  | fopen_debug
  | fprintf_header
  | fprintf_rmse (epoch : Nat) (rmse : F)
  | printf_rmse (i : Nat) (rmse : F)
  | fprintf_footer
  | fclose_debug
  | printf_done

/-- The network object together with the record of the calls made so far. -/
structure world (F : Type) where
  q : ann F
  log : List (ann_event F)

/-- Applying a layer operation to q->layers[i]; none when i is not an index of the
layer array. -/
def with_layer {F : Type} (i : Nat) (f : layer_mem F → layer_mem F) (q : ann F) :
    Option (ann F) :=
  match q.layers[i]? with
  | none => none
  | some l =>
      let m := f { layer := l, w := q.w, y_hat := q.y_hat }
      some { q with layers := q.layers.set i m.layer, w := m.w, y_hat := m.y_hat }

/-- The call annlayer_evaluate(q->layers[i]). -/
def call_annlayer_evaluate {F : Type} (ops : layer_ops F) (i : Nat) (W : world F) :
    Option (world F) :=
  (with_layer i ops.annlayer_evaluate W.q).map
    (fun q => { q := q, log := W.log ++ [ann_event.annlayer_evaluate i] })

/-- The call annlayer_compute_bp_error(q->layers[n], e), e pointing at contents. -/
def call_annlayer_compute_bp_error {F : Type} (ops : layer_ops F) (n : Nat)
    (e : error_ptr F) (contents : List F) (W : world F) : Option (world F) :=
  (with_layer n (ops.annlayer_compute_bp_error contents) W.q).map
    (fun q => { q := q, log := W.log ++ [ann_event.annlayer_compute_bp_error n e] })

/-- The call annlayer_train(q->layers[i], rate). -/
def call_annlayer_train {F : Type} (ops : layer_ops F) (rate : F) (i : Nat) (W : world F) :
    Option (world F) :=
  (with_layer i (ops.annlayer_train rate) W.q).map
    (fun q => { q := q, log := W.log ++ [ann_event.annlayer_train i rate] })

/-! ## ann_evaluate -/

/-- The function ann_evaluate: memmove of num_inputs elements of _x to the head of
y_hat, one annlayer_evaluate per layer, then memmove of num_outputs elements from offset
num_nodes + num_inputs - num_outputs of y_hat into the result. -/
def ann_evaluate {F : Type} (ops : layer_ops F) (W : world F) (_x : List F) :
    Option (world F × List F) :=
  (read_array _x 0 W.q.num_inputs).bind fun xs =>
  (write_array W.q.y_hat 0 xs).bind fun buf =>
  (for_loop (call_annlayer_evaluate ops) W.q.num_layers 0
      { W with q := { W.q with y_hat := buf } }).bind fun W1 =>
  (read_array W1.q.y_hat (usub (uadd W1.q.num_nodes W1.q.num_inputs) W1.q.num_outputs)
      W1.q.num_outputs).map fun out => (W1, out)

/-! ## ann_train_bp -/

/-- One iteration of the back-propagation loop of ann_train_bp: n = num_layers - i - 1
and e = (i==0) ? error : q->layers[n+1]->error. -/
def ann_train_bp_step {F : Type} (ops : layer_ops F) (error : List F) (i : Nat)
    (W : world F) : Option (world F) :=
  let n := usub (usub W.q.num_layers i) 1
  if i = 0 then
    call_annlayer_compute_bp_error ops n (error_ptr.local_error error) error W
  else
    match W.q.layers[uadd n 1]? with
    | none => none
    | some l =>
        call_annlayer_compute_bp_error ops n (error_ptr.layer_error (uadd n 1)) l.error W

/-- The function ann_train_bp. -/
def ann_train_bp {F : Type} [FloatOps F] (ops : layer_ops F) (W : world F)
    (_x _y : List F) : Option (world F) :=
  (ann_evaluate ops W _x).bind fun r =>
  (read_array _y 0 r.1.q.num_outputs).bind fun ys =>
  (read_array r.2 0 r.1.q.num_outputs).bind fun ps =>
  let error := List.zipWith FloatOps.sub ys ps
  (for_loop (ann_train_bp_step ops error) r.1.q.num_layers 0 r.1).bind fun W2 =>
  for_loop (call_annlayer_train ops (FloatOps.lit (1 / 100))) W2.q.num_layers 0 W2

/-! ## ann_compute_rmse -/

/-- The inner loop of ann_compute_rmse over the outputs of pattern i: e += d*d with
d = y_hat[j] - _y[i*num_outputs + j]. -/
def ann_compute_rmse_inner {F : Type} [FloatOps F] (y_hat _y : List F)
    (i num_outputs : Nat) : Nat → Nat → F → Option F
  | 0, _, e => some e
  | count + 1, j, e =>
      (y_hat[j]?).bind fun p =>
      (_y[uadd (umul i num_outputs) j]?).bind fun t =>
      let d := FloatOps.sub p t
      ann_compute_rmse_inner y_hat _y i num_outputs count (j + 1)
        (FloatOps.add e (FloatOps.mul d d))

/-- One iteration of the loop of ann_compute_rmse over the patterns. -/
def ann_compute_rmse_step {F : Type} [FloatOps F] (ops : layer_ops F) (_x _y : List F)
    (i : Nat) (s : world F × F) : Option (world F × F) :=
  (ann_evaluate ops s.1 (_x.drop (umul i s.1.q.num_inputs))).bind fun r =>
  (ann_compute_rmse_inner r.2 _y i r.1.q.num_outputs r.1.q.num_outputs 0
      (FloatOps.lit 0)).map fun e =>
  (r.1, FloatOps.add s.2 (FloatOps.div e (FloatOps.ofUInt r.1.q.num_outputs)))

/-- The function ann_compute_rmse. -/
def ann_compute_rmse {F : Type} [FloatOps F] (ops : layer_ops F) (W : world F)
    (_x _y : List F) (_num_patterns : Nat) : Option (world F × F) :=
  (for_loop (ann_compute_rmse_step ops _x _y) _num_patterns 0 (W, FloatOps.lit 0)).map
    fun s => (s.1, FloatOps.sqrtf (FloatOps.div s.2 (FloatOps.ofUInt _num_patterns)))

/-! ## Genetic-search training -/

/-- The struct ann_ga_search_object; its network field is the network of the world the
callback runs in. -/
structure ann_ga_search_object (F : Type) where
  x : List F
  y : List F
  num_patterns : Nat

/-- The function ann_ga_search_callback; _v holds the contents of the candidate
vector the engine passes. -/
def ann_ga_search_callback {F : Type} [FloatOps F] (ops : layer_ops F)
    (_userdata : ann_ga_search_object F) (_v : List F) (_num_parameters : Nat)
    (W : world F) : Option (world F × F) :=
  let q := _userdata
  ann_compute_rmse ops W q.x q.y q.num_patterns

/-- Search direction handed to ga_search_create. -/
inductive optim_mode where
  | LIQUID_OPTIM_MINIMIZE
  | LIQUID_OPTIM_MAXIMIZE
  deriving DecidableEq, Repr

/-- The search engine (ga_search_create, ga_search_evolve, ga_search_destroy), whose
bodies are in another file; G is the engine object. ga_search_create is given the user
data, the parameter count, the callback and the direction; its vector argument is
q->w, the weight buffer of the network of the world it acts on. -/
structure ga_ops (F G : Type) where
  ga_search_create :
    ann_ga_search_object F → Nat →
    (ann_ga_search_object F → List F → Nat → world F → Option (world F × F)) →
    optim_mode → world F → Option (G × world F)
  ga_search_evolve : G → world F → Option (G × world F)
  ga_search_destroy : G → world F → Option (world F)

/-- The function ann_train_ga. -/
def ann_train_ga {F G : Type} [FloatOps F] (gops : ga_ops F G) (ops : layer_ops F)
    (W : world F) (_x _y : List F) (_num_patterns : Nat) : Option (world F) :=
  let obj : ann_ga_search_object F := { x := _x, y := _y, num_patterns := _num_patterns }
  (gops.ga_search_create obj W.q.num_weights (ann_ga_search_callback ops)
      optim_mode.LIQUID_OPTIM_MINIMIZE W).bind fun s =>
  (for_loop (fun _ (t : G × world F) => gops.ga_search_evolve t.1 t.2) 1000 0 s).bind fun t =>
  gops.ga_search_destroy t.1 t.2

/-! ## ann_train -/

/-- Control state inside a C function body: still running, or past a return. -/
inductive flow (σ : Type) where
  | running (s : σ)
  | returned (s : σ)

/-- The state carried by a control state. -/
def flow.state {σ : Type} : flow σ → σ
  | flow.running s => s
  | flow.returned s => s

/-- Executing the next statement: skipped once the function has returned. -/
def flow.step {σ : Type} (c : Option (flow σ)) (stmt : σ → Option (flow σ)) :
    Option (flow σ) :=
  c.bind fun f =>
    match f with
    | flow.running s => stmt s
    | flow.returned s => some (flow.returned s)

/-- Appending an output event to the record. -/
def emit {F : Type} (e : ann_event F) (W : world F) : world F :=
  { W with log := W.log ++ [e] }

/-- The epoch loop of ann_train: for (i = ...; i < _nmax; i++) with its break, the
first argument being the number of iterations still allowed. -/
def ann_train_epochs {F : Type} [FloatOps F] (ops : layer_ops F) (_x _y : List F)
    (_num_patterns : Nat) (_emax : F) : Nat → Nat → world F → Option (world F)
  | 0, _, W => some W
  | remaining + 1, i, W =>
      (for_loop (fun j V => ann_train_bp ops V (_x.drop (umul j V.q.num_inputs))
          (_y.drop (umul j V.q.num_outputs))) _num_patterns 0 W).bind fun W1 =>
      (ann_compute_rmse ops W1 _x _y _num_patterns).bind fun r =>
      let W2 := emit (ann_event.fprintf_rmse (uadd i 1) r.2) r.1
      let W3 := if i % 100 = 0 then emit (ann_event.printf_rmse i r.2) W2 else W2
      if FloatOps.lt r.2 _emax then some W3
      else ann_train_epochs ops _x _y _num_patterns _emax remaining (i + 1) W3

/-- The function ann_train, statement by statement: the call of ann_train_ga, the
return, and the statements that follow it in the source. -/
def ann_train {F G : Type} [FloatOps F] (gops : ga_ops F G) (ops : layer_ops F)
    (W : world F) (_x _y : List F) (_num_patterns : Nat) (_emax : F) (_nmax : Nat) :
    Option (world F) :=
  let s0 : Option (flow (world F)) := some (flow.running W)
  let s1 := flow.step s0 fun V => (ann_train_ga gops ops V _x _y _num_patterns).map flow.running
  let s2 := flow.step s1 fun V => some (flow.returned V)
  let s3 := flow.step s2 fun V =>
    some (flow.running (emit ann_event.fprintf_header (emit ann_event.fopen_debug V)))
  let s4 := flow.step s3 fun V =>
    (ann_train_epochs ops _x _y _num_patterns _emax _nmax 0 V).map flow.running
  let s5 := flow.step s4 fun V =>
    some (flow.running (emit ann_event.printf_done
      (emit ann_event.fclose_debug (emit ann_event.fprintf_footer V))))
  s5.map flow.state

/-! ## Closed forms of the specification -/

/-- The sum over i >= 1 of (structure[i-1]+1)*structure[i], prev being the entry before
the list. -/
def link_weight_sum : Nat → List Nat → Nat
  | _, [] => 0
  | prev, n :: rest => (prev + 1) * n + link_weight_sum n rest

/-- The closed form 2*n_0 + sum_{i>=1} (n_{i-1}+1)*n_i of the specification. -/
def spec_num_weights (s : List Nat) : Nat :=
  2 * s.headD 0 + link_weight_sum (s.headD 0) s.tail

/-- The closed form sum_i n_i of the specification. -/
def spec_num_nodes (s : List Nat) : Nat := s.sum

/-- Integer square root by bisection on the bits below the given position. -/
def isqrt_bits (n : Nat) : Nat → Nat → Nat
  | 0, acc => acc
  | b + 1, acc => isqrt_bits n b (if (acc + 2 ^ b) * (acc + 2 ^ b) ≤ n then acc + 2 ^ b else acc)

/-- Square root of a rational, exact on quotients of squares below 2^64. -/
def rat_sqrt (a : ℚ) : ℚ :=
  (isqrt_bits a.num.toNat 32 0 : ℚ) / (isqrt_bits a.den 32 0 : ℚ)

instance ratFloatOps : FloatOps ℚ where
  lit := fun q => q
  ofUInt := fun n => (n : ℚ)
  add := fun a b => a + b
  sub := fun a b => a - b
  mul := fun a b => a * b
  div := fun a b => a / b
  sqrtf := rat_sqrt
  lt := fun a b => decide (a < b)


/-! ## Wiring invariant and the proviso on layer evaluation -/

/-- Length of the input region of a layer, as ann_create lays it out: it advances the
input offset by structure[0] after the input layer and by the number of inputs after
every other layer. -/
def annlayer.input_len {F : Type} (l : annlayer F) : Nat :=
  if l.is_input_layer then l.num_outputs else l.num_inputs

/-- The weight slice of a layer: (num_inputs+1)*num_outputs weights from its offset. -/
def annlayer.weight_slice {F : Type} (l : annlayer F) (w : List F) : List F :=
  (w.drop l.w).take ((l.num_inputs + 1) * l.num_outputs)

/-- The input region of a layer in the activation buffer. -/
def annlayer.input_region {F : Type} (l : annlayer F) (y_hat : List F) : List F :=
  (y_hat.drop l.x).take l.input_len

/-- A chain of layers over the activation buffer: each layer writes at y, reads the
region that ends at y, and the next layer writes right after it, up to offset e. -/
def wired {F : Type} : Nat → Nat → List (annlayer F) → Prop
  | y, e, [] => y = e
  | y, e, l :: ls => l.y = y ∧ l.x + l.input_len = y ∧ wired (y + l.num_outputs) e ls

/-- The wiring invariant of a network: one layer object per layer, chained over the
whole activation buffer behind the input region, whose length is num_nodes + num_inputs
without wrap-around. -/
def ann_wired {F : Type} (q : ann F) : Prop :=
  q.layers.length = q.num_layers ∧ wired q.num_inputs q.y_hat.length q.layers ∧
  q.num_nodes + q.num_inputs = q.y_hat.length ∧ q.y_hat.length < UINT_RANGE ∧
  q.num_outputs ≤ q.num_nodes

/-- A partition of the weight vector from offset off up to offset e: each layer is
handed the offset where the slice of the layer before it ends, its own slice having
(num_inputs+1)*num_outputs weights. -/
def sliced {F : Type} : Nat → Nat → List (annlayer F) → Prop
  | off, e, [] => off = e
  | off, e, l :: ls =>
      l.w = off ∧ sliced (off + (l.num_inputs + 1) * l.num_outputs) e ls

/-- What every layer call leaves unchanged: the number of layer objects and the sizes
stored in the network object. -/
def frame {F : Type} (L no : Nat) (W : world F) : Prop :=
  W.q.layers.length = L ∧ W.q.num_layers = L ∧ W.q.num_outputs = no

/-- The wiring data of a layer object. -/
def annlayer.wiring {F : Type} (l : annlayer F) : Nat × Nat × Nat × Nat × Nat × Bool :=
  (l.w, l.x, l.y, l.num_inputs, l.num_outputs, l.is_input_layer)

/-- The network q2 has the sizes and the wiring of q1; weights, buffer contents and
layer errors may differ. -/
def same_wiring {F : Type} (q1 q2 : ann F) : Prop :=
  q2.num_inputs = q1.num_inputs ∧ q2.num_outputs = q1.num_outputs ∧
  q2.num_layers = q1.num_layers ∧ q2.num_nodes = q1.num_nodes ∧
  q2.y_hat.length = q1.y_hat.length ∧
  q2.layers.map annlayer.wiring = q1.layers.map annlayer.wiring

/-- The proviso on annlayer_evaluate: it changes nothing but its output region of the
activation buffer, and fills that whole region with values that are a function of the
layer object, its weight slice and its input region. -/
def evaluates_regionwise {F : Type} (ops : layer_ops F) : Prop :=
  ∃ f : annlayer F → List F → List F → List F,
    ∀ m : layer_mem F,
      (f m.layer (m.layer.weight_slice m.w) (m.layer.input_region m.y_hat)).length
          = m.layer.num_outputs ∧
      ops.annlayer_evaluate m =
        { m with y_hat := (m.y_hat.take m.layer.y
            ++ f m.layer (m.layer.weight_slice m.w) (m.layer.input_region m.y_hat)
            ++ m.y_hat.drop (m.layer.y + m.layer.num_outputs)) }

/-! ## A concrete instance in exact rational arithmetic

The layer operations are parameters of the embedding. To run it on concrete inputs they
are instantiated here, over the rationals, following the description of a layer in the
specification. -/

/-- Contents of fresh memory in the concrete runs. -/
def rat_heap : Nat → ℚ := fun _ => 0

/-- A saturating smooth odd function on the rationals: t / (1 + |t|). -/
def rat_activation (t : ℚ) : ℚ := t / (1 + |t|)

/-- Modelled from the spec: output j of a layer, the input layer being a pass-through
and every other layer applying the activation function to the weighted sum of its
inputs plus a bias; node j owns num_inputs+1 consecutive weights, the bias last. -/
def rat_node_output (l : annlayer ℚ) (ws xs : List ℚ) (j : Nat) : ℚ :=
  if l.is_input_layer then xs.getD j 0
  else
    rat_activation (l.mu *
      (((List.range l.num_inputs).map
          (fun k => ws.getD (j * (l.num_inputs + 1) + k) 0 * xs.getD k 0)).sum
        + ws.getD (j * (l.num_inputs + 1) + l.num_inputs) 0))

/-- All outputs of a layer. -/
def rat_layer_output (l : annlayer ℚ) (ws xs : List ℚ) : List ℚ :=
  (List.range l.num_outputs).map (rat_node_output l ws xs)

/-- Modelled from the spec: the three layer operations over the rationals. Evaluation
fills the output region; the backward step stores the error attributed to the inputs
(weights transposed, applied to the incoming error); the update adds the rate times the
stored error total to every weight of the slice. -/
def rat_layer_ops : layer_ops ℚ where
  annlayer_evaluate := fun m =>
    { m with y_hat := (m.y_hat.take m.layer.y
        ++ rat_layer_output m.layer (m.layer.weight_slice m.w) (m.layer.input_region m.y_hat)
        ++ m.y_hat.drop (m.layer.y + m.layer.num_outputs)) }
  annlayer_compute_bp_error := fun e m =>
    { m with layer := { m.layer with error :=
        (List.range m.layer.num_inputs).map (fun k =>
          ((List.range m.layer.num_outputs).map (fun j =>
            (m.layer.weight_slice m.w).getD (j * (m.layer.num_inputs + 1) + k) 0
              * e.getD j 0)).sum) } }
  annlayer_train := fun rate m =>
    { m with w := (m.w.take m.layer.w
        ++ (m.layer.weight_slice m.w).map (fun a => a + rate * m.layer.error.sum)
        ++ m.w.drop (m.layer.w + (m.layer.num_inputs + 1) * m.layer.num_outputs)) }

/-- The network of a creation result, when there is one. -/
def ann_create_result.network {F : Type} (r : ann_create_result F) : Option (ann F) :=
  match r.result with
  | Except.ok q => some q
  | Except.error _ => none

/-- A network without layers, the fallback of rat_network. -/
def rat_empty_network : ann ℚ :=
  { w := [], num_weights := 0, structure_ := [], num_inputs := 0, num_outputs := 0,
    num_layers := 0, num_nodes := 0, layers := [], y_hat := [], dw := [] }

/-- The network ann_create returns for a structure, over the rationals. -/
def rat_network (s : List Nat) : ann ℚ :=
  ((ann_create rat_heap s).network).getD rat_empty_network

/-! ## Back-propagation as the specification words it

A second description of one training step, to compare ann_train_bp with: total
functions on the network object that visit the layers in the order the specification
gives, with the data it gives. -/

/-- Layer n of the network takes the step f on the memory it can reach; a network
without a layer n is left as it is. -/
def layer_step {F : Type} (f : layer_mem F → layer_mem F) (n : Nat) (q : ann F) : ann F :=
  match q.layers[n]? with
  | none => q
  | some l =>
      let m := f { layer := l, w := q.w, y_hat := q.y_hat }
      { q with layers := q.layers.set n m.layer, w := m.w, y_hat := m.y_hat }

/-- Forward pass: the input goes to the head of the activation buffer and the layers
are evaluated in structural order 0, 1, ..., L-1. -/
def spec_forward {F : Type} (ops : layer_ops F) (q : ann F) (x : List F) : ann F :=
  (List.range q.num_layers).foldl (fun p i => layer_step ops.annlayer_evaluate i p)
    { q with y_hat := x.take q.num_inputs ++ q.y_hat.drop q.num_inputs }

/-- Backward pass over the layers k-1, k-2, ..., 0 of a network of L layers, in that
order: the last layer L-1 is fed the output error, every other layer n the error array
that layer n+1 holds when the turn of layer n comes. -/
def spec_backward {F : Type} (ops : layer_ops F) (error : List F) (L : Nat) :
    Nat → ann F → ann F
  | 0, q => q
  | k + 1, q =>
      spec_backward ops error L k
        (layer_step
          (ops.annlayer_compute_bp_error
            (if k + 1 = L then error
             else ((q.layers[k + 1]?).map (fun l => l.error)).getD []))
          k q)

/-- Weight update: the layers 0, 1, ..., L-1 adjust their weights in forward order with
the given learning rate. -/
def spec_update {F : Type} (ops : layer_ops F) (rate : F) (L : Nat) (q : ann F) : ann F :=
  (List.range L).foldl (fun p i => layer_step (ops.annlayer_train rate) i p) q

/-- What a forward pass, or any sequence of layer calls, leaves unchanged in a network
state: the frame, the node and input counts, and the size of the activation buffer. -/
def steady {F : Type} (L no nn ni len : Nat) (W : world F) : Prop :=
  frame L no W ∧ W.q.num_nodes = nn ∧ W.q.num_inputs = ni ∧ W.q.y_hat.length = len

/-- Storing values entry by entry from an offset on; an entry that falls outside the
array is not stored. -/
def store_array {α : Type} : List α → Nat → List α → List α
  | buf, _, [] => buf
  | buf, off, v :: vs => store_array (buf.set off v) (off + 1) vs

/-- The layer operations of the rational instance with an evaluation that stores its
outputs entry by entry, so that the activation buffer keeps its size whatever the
layer object says. -/
def rat_layer_ops_in_place : layer_ops ℚ where
  annlayer_evaluate := fun m =>
    { m with y_hat := (store_array m.y_hat m.layer.y
        (rat_layer_output m.layer (m.layer.weight_slice m.w)
          (m.layer.input_region m.y_hat))) }
  annlayer_compute_bp_error := rat_layer_ops.annlayer_compute_bp_error
  annlayer_train := rat_layer_ops.annlayer_train

/-! ## Arithmetic helpers -/

theorem uadd_modEq (a b : Nat) : uadd a b ≡ a + b [MOD UINT_RANGE] :=
  Nat.mod_modEq _ _

theorem umul_modEq (a b : Nat) : umul a b ≡ a * b [MOD UINT_RANGE] :=
  Nat.mod_modEq _ _

theorem uadd_lt (a b : Nat) : uadd a b < UINT_RANGE :=
  Nat.mod_lt _ (by decide)

theorem umul_lt (a b : Nat) : umul a b < UINT_RANGE :=
  Nat.mod_lt _ (by decide)

theorem uadd_exact {a b : Nat} (h : a + b < UINT_RANGE) : uadd a b = a + b :=
  Nat.mod_eq_of_lt h

theorem sum_le_link_weight_sum (prev : Nat) (rest : List Nat) :
    rest.sum ≤ link_weight_sum prev rest := by
  induction rest generalizing prev with
  | nil => simp [link_weight_sum]
  | cons n rest ih =>
    simp only [List.sum_cons, link_weight_sum]
    have h1 := ih n
    have h2 : n ≤ (prev + 1) * n := Nat.le_mul_of_pos_left n (Nat.succ_pos prev)
    omega

/-- The counting loop computes the closed forms modulo 2^32. -/
theorem ann_create_count_modEq (prev : Nat) (rest : List Nat) (a b : Nat) :
    (ann_create_count prev rest (a, b)).1 ≡ a + link_weight_sum prev rest [MOD UINT_RANGE] ∧
    (ann_create_count prev rest (a, b)).2 ≡ b + rest.sum [MOD UINT_RANGE] := by
  induction rest generalizing prev a b with
  | nil => simp [ann_create_count, link_weight_sum, Nat.ModEq]
  | cons n rest ih =>
    simp only [ann_create_count, link_weight_sum, List.sum_cons]
    obtain ⟨h1, h2⟩ := ih n (uadd a (umul (uadd prev 1) n)) (uadd b n)
    constructor
    · refine h1.trans ?_
      have h3 : umul (uadd prev 1) n ≡ (prev + 1) * n [MOD UINT_RANGE] :=
        (umul_modEq _ _).trans (Nat.ModEq.mul_right n (uadd_modEq prev 1))
      have h4 := (uadd_modEq a (umul (uadd prev 1) n)).trans (Nat.ModEq.add_left a h3)
      have h5 := Nat.ModEq.add_right (link_weight_sum n rest) h4
      rw [Nat.add_assoc] at h5
      exact h5
    · refine h2.trans ?_
      have h5 := Nat.ModEq.add_right rest.sum (uadd_modEq b n)
      rw [Nat.add_assoc] at h5
      exact h5

theorem ann_create_count_lt (prev : Nat) (rest : List Nat) (a b : Nat)
    (ha : a < UINT_RANGE) (hb : b < UINT_RANGE) :
    (ann_create_count prev rest (a, b)).1 < UINT_RANGE ∧
    (ann_create_count prev rest (a, b)).2 < UINT_RANGE := by
  induction rest generalizing prev a b with
  | nil => exact ⟨ha, hb⟩
  | cons n rest ih =>
    simp only [ann_create_count]
    exact ih n _ _ (uadd_lt _ _) (uadd_lt _ _)

/-! ## Facts about ann_create -/

theorem ann_create_counts_exact (a b : Nat) (rest : List Nat)
    (hcap : spec_num_weights (a :: b :: rest) < UINT_RANGE) :
    ann_create_count a (b :: rest) (umul 2 a, a)
      = (spec_num_weights (a :: b :: rest), (a :: b :: rest).sum) := by
  have hsum := sum_le_link_weight_sum a (b :: rest)
  simp only [spec_num_weights, List.headD_cons, List.tail_cons] at hcap
  have ha : a < UINT_RANGE := by omega
  obtain ⟨h1, h2⟩ := ann_create_count_modEq a (b :: rest) (umul 2 a) a
  obtain ⟨h3, h4⟩ := ann_create_count_lt a (b :: rest) (umul 2 a) a (umul_lt _ _) ha
  have h5 : (ann_create_count a (b :: rest) (umul 2 a, a)).1
      ≡ 2 * a + link_weight_sum a (b :: rest) [MOD UINT_RANGE] :=
    h1.trans (Nat.ModEq.add_right _ (umul_modEq 2 a))
  have e1 : (ann_create_count a (b :: rest) (umul 2 a, a)).1
      = 2 * a + link_weight_sum a (b :: rest) :=
    Nat.ModEq.eq_of_lt_of_lt h5 h3 hcap
  have e2 : (ann_create_count a (b :: rest) (umul 2 a, a)).2 = a + (b :: rest).sum :=
    Nat.ModEq.eq_of_lt_of_lt h2 h4 (by omega)
  refine Prod.ext ?_ ?_
  · simpa [spec_num_weights] using e1
  · simpa using e2

theorem ann_create_counts_in_range (a b : Nat) (rest : List Nat)
    (hcap : spec_num_weights (a :: b :: rest) ≤ LIQUID_ANN_MAX_NETWORK_SIZE) :
    ann_create_count a (b :: rest) (umul 2 a, a)
      = (spec_num_weights (a :: b :: rest), (a :: b :: rest).sum) := by
  apply ann_create_counts_exact
  have hM : UINT_RANGE = 4294967296 := by decide
  simp only [LIQUID_ANN_MAX_NETWORK_SIZE] at hcap
  omega

theorem findIdx_none_of_pos (s : List Nat) (hpos : ∀ n ∈ s, 1 ≤ n) :
    s.findIdx? (fun n => decide (n < 1)) = none := by
  rw [List.findIdx?_eq_none_iff]
  intro x hx
  have := hpos x hx
  simp only [decide_eq_false_iff_not]
  omega

/-- Within the cap, ann_create returns a network whose integer fields are the closed
forms, without any wrap-around. -/
theorem ann_create_in_range {F : Type} [FloatOps F] (heap : Nat → F) (s : List Nat)
    (hlen : 2 ≤ s.length) (hpos : ∀ n ∈ s, 1 ≤ n)
    (hcap : spec_num_weights s ≤ LIQUID_ANN_MAX_NETWORK_SIZE) :
    ∃ q, (ann_create heap s).result = Except.ok q ∧
      q.num_weights = spec_num_weights s ∧ q.num_nodes = s.sum ∧
      q.num_inputs = s.headD 0 ∧ q.num_outputs = s.getLastD 0 ∧
      q.num_layers = s.length ∧ q.structure_ = s ∧
      q.layers = ann_create_layers (s.headD 0) s.length 0 0 s 0 0 (s.headD 0) ∧
      q.y_hat.length = s.sum + s.headD 0 ∧ q.w.length = spec_num_weights s := by
  match s, hlen, hpos, hcap with
  | a :: b :: rest, hlen, hpos, hcap =>
    have hc := ann_create_counts_in_range a b rest hcap
    have hf := findIdx_none_of_pos (a :: b :: rest) hpos
    have hsum := sum_le_link_weight_sum a (b :: rest)
    have hcap2 := hcap
    simp only [spec_num_weights, List.headD_cons, List.tail_cons,
      LIQUID_ANN_MAX_NETWORK_SIZE] at hcap2
    have hM : UINT_RANGE = 4294967296 := by decide
    have hy : uadd ((a :: b :: rest).sum) a = (a :: b :: rest).sum + a := by
      apply uadd_exact
      simp only [List.sum_cons] at hsum ⊢
      omega
    have hnot : ¬ (a :: b :: rest).length < 2 := by simp
    have hnot2 : ¬ spec_num_weights (a :: b :: rest) > LIQUID_ANN_MAX_NETWORK_SIZE := by omega
    simp only [ann_create, hnot, if_false, hf, List.headD_cons, List.tail_cons, hc, hnot2, hy]
    refine ⟨_, rfl, ?_⟩
    simp

theorem wired_le {F : Type} (ls : List (annlayer F)) (y e : Nat) (h : wired y e ls) :
    y ≤ e := by
  induction ls generalizing y with
  | nil => exact Nat.le_of_eq h
  | cons l ls ih =>
    have := ih _ h.2.2
    omega

theorem wired_of_wiring {F : Type} (ls1 ls2 : List (annlayer F)) (y e : Nat)
    (hmap : ls2.map annlayer.wiring = ls1.map annlayer.wiring) (h : wired y e ls1) :
    wired y e ls2 := by
  induction ls1 generalizing ls2 y with
  | nil =>
    cases ls2 with
    | nil => exact h
    | cons l ls => simp at hmap
  | cons l1 ls1 ih =>
    cases ls2 with
    | nil => simp at hmap
    | cons l2 ls2 =>
      simp only [List.map_cons, List.cons.injEq] at hmap
      obtain ⟨hw, hrest⟩ := hmap
      simp only [annlayer.wiring, Prod.mk.injEq] at hw
      obtain ⟨_, hx, hy, hni, hno, hin⟩ := hw
      obtain ⟨h1, h2, h3⟩ := h
      refine ⟨by rw [hy]; exact h1, ?_, ?_⟩
      · simp only [annlayer.input_len, hx, hin, hno, hni]
        simpa [annlayer.input_len] using h2
      · rw [hno]
        exact ih ls2 _ hrest h3

theorem ann_create_layers_length {F : Type} [FloatOps F] (s0 L : Nat) (rest : List Nat) :
    ∀ (i prev nw nx ny : Nat),
      (ann_create_layers s0 L i prev rest nw nx ny : List (annlayer F)).length
        = rest.length := by
  induction rest with
  | nil => intros; rfl
  | cons n r ih => intros; simp [ann_create_layers, ih]

/-- The layers built by ann_create are chained, as long as the offsets do not wrap. -/
theorem ann_create_layers_wired {F : Type} [FloatOps F] (s0 L : Nat) (rest : List Nat) :
    ∀ (i prev nw nx ny : Nat), (i = 0 → rest.head? = some s0) →
      nx + (if i = 0 then s0 else prev) = ny → ny + rest.sum < UINT_RANGE →
      wired ny (ny + rest.sum)
        (ann_create_layers s0 L i prev rest nw nx ny : List (annlayer F)) := by
  induction rest with
  | nil => intro i prev nw nx ny _ _ _; simp [ann_create_layers, wired]
  | cons n rest ih =>
    intro i prev nw nx ny hhead hx hlt
    simp only [List.sum_cons] at hlt
    simp only [ann_create_layers, wired, annlayer_create, annlayer.input_len, List.sum_cons]
    refine ⟨trivial, ?_, ?_⟩
    · by_cases hi : i = 0
      · have := hhead hi
        simp only [List.head?_cons, Option.some.injEq] at this
        simp only [hi, if_true, decide_True] at hx ⊢
        omega
      · simp only [hi, if_false, decide_False] at hx ⊢
        simpa using hx
    · have e1 : uadd nx (if i = 0 then s0 else prev) = ny := by
        rw [uadd_exact (by omega)]; exact hx
      have e2 : uadd ny n = ny + n := uadd_exact (by omega)
      rw [e1, e2, ← Nat.add_assoc]
      exact ih (i + 1) n _ ny (ny + n) (by simp) (by simp) (by omega)

/-- Within the cap, the network returned by ann_create satisfies the wiring invariant. -/
theorem ann_create_wired {F : Type} [FloatOps F] (heap : Nat → F) (s : List Nat)
    (hlen : 2 ≤ s.length) (hpos : ∀ n ∈ s, 1 ≤ n)
    (hcap : spec_num_weights s ≤ LIQUID_ANN_MAX_NETWORK_SIZE) :
    ∃ q, (ann_create heap s).result = Except.ok q ∧ ann_wired q := by
  obtain ⟨q, hq, -, hnn, hni, hno, hnl, -, hl, hy, -⟩ := ann_create_in_range heap s hlen hpos hcap
  refine ⟨q, hq, ?_⟩
  match s, hlen, hpos, hcap with
  | a :: b :: rest, hlen, hpos, hcap =>
    have hsum := sum_le_link_weight_sum a (b :: rest)
    simp only [spec_num_weights, List.headD_cons, List.tail_cons,
      LIQUID_ANN_MAX_NETWORK_SIZE] at hcap
    have hM : UINT_RANGE = 4294967296 := by decide
    simp only [List.headD_cons] at hni hl hy
    have hlast : (a :: b :: rest).getLastD 0 ≤ (a :: b :: rest).sum := by
      have hne : a :: b :: rest ≠ [] := by simp
      have hmem : (a :: b :: rest).getLastD 0 ∈ (a :: b :: rest) := by
        rw [List.getLastD_eq_getLast?, List.getLast?_eq_getLast _ hne]
        exact List.getLast_mem hne
      exact List.single_le_sum (by intro x _; exact Nat.zero_le x) _ hmem
    have hlen2 : q.layers.length = q.num_layers := by
      rw [hl, hnl, ann_create_layers_length]
    refine ⟨hlen2, ?_, ?_, ?_, ?_⟩
    · rw [hl, hy, hni]
      have := ann_create_layers_wired (F := F) a (a :: b :: rest).length (a :: b :: rest)
        0 0 0 0 a (by simp) (by simp) (by simp only [List.sum_cons] at hsum ⊢; omega)
      rw [Nat.add_comm] at this
      exact this
    · rw [hnn, hni, hy]
    · rw [hy]; simp only [List.sum_cons] at hsum ⊢; omega
    · rw [hno, hnn]; exact hlast

/-- A weight count above the cap that fits in 32 bits is rejected: ann_create exits
with the size error, having allocated only the network object and its structure
array. -/
theorem ann_create_rejects_above_cap_without_wrap {F : Type} [FloatOps F] (heap : Nat → F)
    (s : List Nat) (hlen : 2 ≤ s.length) (hpos : ∀ n ∈ s, 1 ≤ n)
    (h1 : LIQUID_ANN_MAX_NETWORK_SIZE < spec_num_weights s)
    (h2 : spec_num_weights s < UINT_RANGE) :
    (ann_create heap s).result = Except.error ann_error.network_size_exceeded ∧
    (ann_create heap s).mallocs
      = [ann_malloc.ann_struct, ann_malloc.structure_array s.length] := by
  match s, hlen, hpos, h1, h2 with
  | a :: b :: rest, hlen, hpos, h1, h2 =>
    have hc := ann_create_counts_exact a b rest h2
    have hf := findIdx_none_of_pos (a :: b :: rest) hpos
    have hnot : ¬ (a :: b :: rest).length < 2 := by simp
    have hgt : spec_num_weights (a :: b :: rest) > LIQUID_ANN_MAX_NETWORK_SIZE := h1
    simp only [ann_create, hnot, if_false, hf, List.headD_cons, List.tail_cons, hc, hgt,
      if_true, and_self]

theorem umul_uadd_exact {prev n : Nat} (h : (prev + 1) * n < UINT_RANGE) :
    umul (uadd prev 1) n = (prev + 1) * n :=
  Nat.ModEq.eq_of_lt_of_lt
    ((umul_modEq _ _).trans (Nat.ModEq.mul_right n (uadd_modEq prev 1))) (umul_lt _ _) h

/-- Behind the input layer, the layers built by ann_create are handed consecutive
slices of the weight vector, as long as the offsets do not wrap. -/
theorem ann_create_layers_sliced {F : Type} [FloatOps F] (s0 L : Nat) (rest : List Nat) :
    ∀ (i prev nw nx ny : Nat), i ≠ 0 → nw + link_weight_sum prev rest < UINT_RANGE →
      sliced nw (nw + link_weight_sum prev rest)
        (ann_create_layers s0 L i prev rest nw nx ny : List (annlayer F)) := by
  induction rest with
  | nil => intro i prev nw nx ny _ _; simp [ann_create_layers, sliced, link_weight_sum]
  | cons n rest ih =>
    intro i prev nw nx ny hi hlt
    simp only [link_weight_sum] at hlt
    simp only [ann_create_layers, sliced, annlayer_create, link_weight_sum, hi, if_false]
    refine ⟨trivial, ?_⟩
    rw [umul_uadd_exact (by omega), uadd_exact (by omega), ← Nat.add_assoc]
    exact ih (i + 1) n _ _ _ (by simp) (by omega)

/-- Within the cap, the weight slices handed to the layers partition the weight vector:
they are consecutive from offset 0, each of length (num_inputs+1)*num_outputs, and they
end at num_weights, which is also the length of the weight vector. -/
theorem ann_create_sliced {F : Type} [FloatOps F] (heap : Nat → F) (s : List Nat)
    (hlen : 2 ≤ s.length) (hpos : ∀ n ∈ s, 1 ≤ n)
    (hcap : spec_num_weights s ≤ LIQUID_ANN_MAX_NETWORK_SIZE) :
    ∃ q, (ann_create heap s).result = Except.ok q ∧
      sliced 0 q.num_weights q.layers ∧ q.w.length = q.num_weights := by
  obtain ⟨q, hq, hnw, -, -, -, -, -, hl, -, hwl⟩ := ann_create_in_range heap s hlen hpos hcap
  refine ⟨q, hq, ?_, by rw [hwl, hnw]⟩
  match s, hlen, hpos, hcap with
  | a :: b :: rest, hlen, hpos, hcap =>
    simp only [spec_num_weights, List.headD_cons, List.tail_cons,
      LIQUID_ANN_MAX_NETWORK_SIZE] at hcap hnw
    have hM : UINT_RANGE = 4294967296 := by decide
    simp only [List.headD_cons] at hl
    have hstep : (ann_create_layers a (a :: b :: rest).length 0 0 (a :: b :: rest) 0 0 a :
          List (annlayer F))
        = annlayer_create 0 0 a 1 a (decide (0 = 0))
              (decide (0 = usub (a :: b :: rest).length 1))
              ann_activation_function.LIQUID_ANN_AF_TANH (FloatOps.lit 1)
            :: ann_create_layers a (a :: b :: rest).length 1 a (b :: rest)
                (uadd 0 (umul (uadd 1 1) a)) (uadd 0 a) (uadd a a) := rfl
    have e1 : umul (uadd 1 1) a = (1 + 1) * a := umul_uadd_exact (by omega)
    have e3 : uadd 0 ((1 + 1) * a) = 2 * a := by
      rw [uadd_exact (by omega)]
      omega
    have e2 : 0 + (1 + 1) * a = 2 * a := by omega
    rw [hl, hnw, hstep, e1, e3]
    refine ⟨rfl, ?_⟩
    show sliced (0 + (1 + 1) * a) _ _
    rw [e2]
    exact ann_create_layers_sliced a _ (b :: rest) 1 a (2 * a) _ _ (by simp) (by omega)

/-! ## Facts about ann_evaluate -/

theorem set_middle_self {α : Type} (pre ls : List α) (l : α) :
    (pre ++ l :: ls).set pre.length l = pre ++ l :: ls := by
  induction pre with
  | nil => rfl
  | cons a pre ih => simp [ih]

theorem getElem_middle {α : Type} (pre ls : List α) (l : α) :
    (pre ++ l :: ls)[pre.length]? = some l := by
  rw [List.getElem?_append_right (Nat.le_refl _)]
  simp

/-- Under the proviso, one call of annlayer_evaluate rewrites the output region of the
layer and leaves the rest of the network as it is. -/
theorem call_evaluate_regionwise {F : Type} (ops : layer_ops F)
    (f : annlayer F → List F → List F → List F)
    (hf : ∀ m : layer_mem F,
      (f m.layer (m.layer.weight_slice m.w) (m.layer.input_region m.y_hat)).length
          = m.layer.num_outputs ∧
      ops.annlayer_evaluate m =
        { m with y_hat := (m.y_hat.take m.layer.y
            ++ f m.layer (m.layer.weight_slice m.w) (m.layer.input_region m.y_hat)
            ++ m.y_hat.drop (m.layer.y + m.layer.num_outputs)) })
    (q : ann F) (pre ls : List (annlayer F)) (l : annlayer F)
    (hq : q.layers = pre ++ l :: ls) (buf : List F) (log : List (ann_event F)) :
    call_annlayer_evaluate ops pre.length { q := { q with y_hat := buf }, log := log }
      = some { q := { q with y_hat := (buf.take l.y
                  ++ f l (l.weight_slice q.w) (l.input_region buf)
                  ++ buf.drop (l.y + l.num_outputs)) },
               log := log ++ [ann_event.annlayer_evaluate pre.length] } := by
  have h := (hf { layer := l, w := q.w, y_hat := buf }).2
  simp only [call_annlayer_evaluate, with_layer, hq, getElem_middle, h, set_middle_self,
    Option.map_some']

/-- Under the proviso, running the evaluation loop over a chain of layers from two
buffers that agree before the first output region ends in the same network state. -/
theorem eval_loop_agree {F : Type} (ops : layer_ops F)
    (f : annlayer F → List F → List F → List F)
    (hf : ∀ m : layer_mem F,
      (f m.layer (m.layer.weight_slice m.w) (m.layer.input_region m.y_hat)).length
          = m.layer.num_outputs ∧
      ops.annlayer_evaluate m =
        { m with y_hat := (m.y_hat.take m.layer.y
            ++ f m.layer (m.layer.weight_slice m.w) (m.layer.input_region m.y_hat)
            ++ m.y_hat.drop (m.layer.y + m.layer.num_outputs)) })
    (q : ann F) :
    ∀ (ls pre : List (annlayer F)) (y : Nat) (ba bb : List F) (la lb : List (ann_event F)),
      q.layers = pre ++ ls → wired y ba.length ls → bb.length = ba.length →
      ba.take y = bb.take y →
      ∃ buf la2 lb2,
        for_loop (call_annlayer_evaluate ops) ls.length pre.length
            { q := { q with y_hat := ba }, log := la }
          = some { q := { q with y_hat := buf }, log := la2 } ∧
        for_loop (call_annlayer_evaluate ops) ls.length pre.length
            { q := { q with y_hat := bb }, log := lb }
          = some { q := { q with y_hat := buf }, log := lb2 } ∧
        buf.length = ba.length := by
  intro ls
  induction ls with
  | nil =>
    intro pre y ba bb la lb _ hw hlen htake
    simp only [wired] at hw
    have hab : ba = bb := by
      have h1 : ba.take y = ba := List.take_of_length_le (by omega)
      have h2 : bb.take y = bb := List.take_of_length_le (by omega)
      rw [← h1, ← h2, htake]
    subst hab
    exact ⟨ba, la, lb, rfl, rfl, rfl⟩
  | cons l ls ih =>
    intro pre y ba bb la lb hq hw hlen htake
    obtain ⟨h1, h2, h3⟩ := hw
    have hle := wired_le _ _ _ h3
    have hin : l.input_region ba = l.input_region bb := by
      simp only [annlayer.input_region, List.take_drop, h2, htake]
    have hout := (hf { layer := l, w := q.w, y_hat := ba }).1
    simp only at hout
    have hlena : (ba.take l.y ++ f l (l.weight_slice q.w) (l.input_region ba)
        ++ ba.drop (l.y + l.num_outputs)).length = ba.length := by
      simp only [List.length_append, List.length_take, List.length_drop, hout, h1]
      omega
    have hlenb : (bb.take l.y ++ f l (l.weight_slice q.w) (l.input_region ba)
        ++ bb.drop (l.y + l.num_outputs)).length = ba.length := by
      simp only [List.length_append, List.length_take, List.length_drop, hout, h1, hlen]
      omega
    have htk : ∀ b : List F, b.length = ba.length →
        (b.take l.y ++ f l (l.weight_slice q.w) (l.input_region ba)
          ++ b.drop (l.y + l.num_outputs)).take (y + l.num_outputs)
          = b.take y ++ f l (l.weight_slice q.w) (l.input_region ba) := by
      intro b hb
      rw [h1]
      apply List.take_left'
      simp only [List.length_append, List.length_take, hout, h1, hb]
      omega
    have hq2 : q.layers = (pre ++ [l]) ++ ls := by simp [hq]
    have hw2 : wired (y + l.num_outputs)
        (ba.take l.y ++ f l (l.weight_slice q.w) (l.input_region ba)
          ++ ba.drop (l.y + l.num_outputs)).length ls := by
      rw [hlena]; exact h3
    obtain ⟨buf, la2, lb2, e1, e2, e3⟩ := ih (pre ++ [l]) (y + l.num_outputs) _
      (bb.take l.y ++ f l (l.weight_slice q.w) (l.input_region ba)
          ++ bb.drop (l.y + l.num_outputs))
      (la ++ [ann_event.annlayer_evaluate pre.length])
      (lb ++ [ann_event.annlayer_evaluate pre.length]) hq2 hw2
      (by rw [hlenb, hlena]) (by rw [htk ba rfl, htk bb hlen, htake])
    refine ⟨buf, la2, lb2, ?_, ?_, by rw [e3, hlena]⟩
    · simp only [List.length_cons, for_loop,
        call_evaluate_regionwise ops f hf q pre ls l hq ba la, Option.some_bind]
      simpa using e1
    · simp only [List.length_cons, for_loop,
        call_evaluate_regionwise ops f hf q pre ls l hq bb lb, Option.some_bind, ← hin]
      simpa using e2

theorem usub_exact {a b : Nat} (hb : b ≤ a) (ha : a < UINT_RANGE) : usub a b = a - b := by
  have hM : UINT_RANGE = 4294967296 := by decide
  simp only [usub, hM] at *
  omega

/-- Under the proviso, on a network that satisfies the wiring invariant, ann_evaluate
returns, and the network state it leaves and the output it copies do not depend on the
contents the activation buffer had before the call. -/
theorem ann_evaluate_of_wired {F : Type} (ops : layer_ops F)
    (hops : evaluates_regionwise ops) (q : ann F) (hw : ann_wired q) (x : List F)
    (hx : q.num_inputs ≤ x.length) :
    ∃ (bufF out : List F), bufF.length = q.y_hat.length ∧
      ∀ (buf : List F) (log : List (ann_event F)), buf.length = q.y_hat.length →
        ∃ log2, ann_evaluate ops { q := { q with y_hat := buf }, log := log } x
          = some ({ q := { q with y_hat := bufF }, log := log2 }, out) := by
  obtain ⟨f, hf⟩ := hops
  obtain ⟨hL, hwired, hsum, hlt, hno⟩ := hw
  have hni := wired_le _ _ _ hwired
  have hread : read_array x 0 q.num_inputs = some (x.take q.num_inputs) := by
    simp [read_array, hx]
  have hxs : (x.take q.num_inputs).length = q.num_inputs := by
    simp [List.length_take, hx]
  have hwrite : ∀ buf : List F, buf.length = q.y_hat.length →
      write_array buf 0 (x.take q.num_inputs)
        = some (x.take q.num_inputs ++ buf.drop q.num_inputs) := by
    intro buf hb
    have : q.num_inputs ≤ buf.length := by rw [hb]; exact hni
    simp only [write_array, Nat.zero_add, this, if_true, List.take_zero, List.nil_append, hxs]
  have hlen0 : ∀ buf : List F, buf.length = q.y_hat.length →
      (x.take q.num_inputs ++ buf.drop q.num_inputs).length = q.y_hat.length := by
    intro buf hb
    simp only [List.length_append, hxs, List.length_drop, hb]
    omega
  have htake0 : ∀ buf : List F,
      (x.take q.num_inputs ++ buf.drop q.num_inputs).take q.num_inputs = x.take q.num_inputs :=
    fun buf => List.take_left' hxs
  -- the reference run, from the buffer the network holds
  obtain ⟨bufF, laF, -, eF, -, hlenF⟩ := eval_loop_agree ops f hf q q.layers [] q.num_inputs
    (x.take q.num_inputs ++ q.y_hat.drop q.num_inputs)
    (x.take q.num_inputs ++ q.y_hat.drop q.num_inputs) [] [] rfl
    (by rw [hlen0 _ rfl]; exact hwired) rfl rfl
  rw [hlen0 _ rfl] at hlenF
  have hoff : usub (uadd q.num_nodes q.num_inputs) q.num_outputs
      = q.y_hat.length - q.num_outputs := by
    rw [uadd_exact (by omega), hsum]
    exact usub_exact (by omega) hlt
  refine ⟨bufF, (bufF.drop (q.y_hat.length - q.num_outputs)).take q.num_outputs, hlenF, ?_⟩
  intro buf log hb
  obtain ⟨buf2, la2, lb2, e1, e2, -⟩ := eval_loop_agree ops f hf q q.layers [] q.num_inputs
    (x.take q.num_inputs ++ q.y_hat.drop q.num_inputs)
    (x.take q.num_inputs ++ buf.drop q.num_inputs) [] log rfl
    (by rw [hlen0 _ rfl]; exact hwired) (by rw [hlen0 _ hb, hlen0 _ rfl])
    (by rw [htake0, htake0])
  have hsame : buf2 = bufF := by
    rw [eF] at e1
    simp only [Option.some.injEq, world.mk.injEq, ann.mk.injEq] at e1
    exact e1.1.2.2.2.2.2.2.2.2.1.symm
  subst hsame
  refine ⟨lb2, ?_⟩
  simp only [List.length_nil, hL] at e2
  have hin : q.y_hat.length - q.num_outputs + q.num_outputs ≤ buf2.length := by omega
  have hout : read_array buf2 (q.y_hat.length - q.num_outputs) q.num_outputs
      = some ((buf2.drop (q.y_hat.length - q.num_outputs)).take q.num_outputs) := by
    simp only [read_array, hin, if_true]
  simp only [ann_evaluate, hread, Option.some_bind, hwrite buf hb, e2, hoff, hout,
    Option.map_some']

theorem ann_wired_of_same_wiring {F : Type} (q1 q2 : ann F) (h : same_wiring q1 q2)
    (hw : ann_wired q1) : ann_wired q2 := by
  obtain ⟨hni, hno, hnl, hnn, hy, hmap⟩ := h
  obtain ⟨h1, h2, h3, h4, h5⟩ := hw
  have hlen : q2.layers.length = q1.layers.length := by
    have := congrArg List.length hmap
    simpa using this
  refine ⟨by rw [hlen, hnl, h1], ?_, by rw [hnn, hni, hy, h3], by rw [hy]; exact h4,
    by rw [hno, hnn]; exact h5⟩
  rw [hni, hy]
  exact wired_of_wiring q1.layers q2.layers _ _ hmap h2

theorem rat_layer_ops_regionwise : evaluates_regionwise rat_layer_ops :=
  ⟨rat_layer_output, fun _ => ⟨by simp [rat_layer_output], rfl⟩⟩

/-! ## Facts about the loops of ann_train_bp -/

theorem with_layer_frame {F : Type} (i : Nat) (f : layer_mem F → layer_mem F) (q q2 : ann F)
    (h : with_layer i f q = some q2) :
    q2.layers.length = q.layers.length ∧ q2.num_layers = q.num_layers ∧
      q2.num_outputs = q.num_outputs := by
  unfold with_layer at h
  cases hl : q.layers[i]? with
  | none => rw [hl] at h; simp at h
  | some l =>
    rw [hl] at h
    simp only [Option.some.injEq] at h
    subst h
    simp

theorem with_layer_some {F : Type} (i : Nat) (f : layer_mem F → layer_mem F) (q : ann F)
    (h : i < q.layers.length) : ∃ q2, with_layer i f q = some q2 := by
  unfold with_layer
  rw [List.getElem?_eq_getElem h]
  exact ⟨_, rfl⟩

theorem call_evaluate_frame {F : Type} (ops : layer_ops F) (L no i : Nat) (W W2 : world F)
    (hW : frame L no W) (h : call_annlayer_evaluate ops i W = some W2) : frame L no W2 := by
  unfold call_annlayer_evaluate at h
  cases hq : with_layer i ops.annlayer_evaluate W.q with
  | none => rw [hq] at h; simp at h
  | some q2 =>
    rw [hq] at h
    simp only [Option.map_some', Option.some.injEq] at h
    subst h
    obtain ⟨h1, h2, h3⟩ := with_layer_frame _ _ _ _ hq
    exact ⟨h1.trans hW.1, h2.trans hW.2.1, h3.trans hW.2.2⟩

theorem for_loop_invariant {σ : Type} (body : Nat → σ → Option σ) (P : σ → Prop)
    (hbody : ∀ i s s2, P s → body i s = some s2 → P s2) :
    ∀ (n i : Nat) (s s2 : σ), P s → for_loop body n i s = some s2 → P s2 := by
  intro n
  induction n with
  | zero =>
    intro i s s2 hs h
    simp only [for_loop, Option.some.injEq] at h
    exact h ▸ hs
  | succ n ih =>
    intro i s s2 hs h
    simp only [for_loop] at h
    cases hb : body i s with
    | none => rw [hb] at h; simp at h
    | some s1 =>
      rw [hb] at h
      exact ih (i + 1) s1 s2 (hbody i s s1 hs hb) h

/-- A loop whose every iteration succeeds and records one call records the calls of the
iterations in order. -/
theorem for_loop_log {F : Type} (body : Nat → world F → Option (world F))
    (ev : Nat → ann_event F) (P : world F → Prop) (hi : Nat)
    (hstep : ∀ i W, i < hi → P W →
      ∃ W2, body i W = some W2 ∧ P W2 ∧ W2.log = W.log ++ [ev i]) :
    ∀ (n i : Nat) (W : world F), i + n ≤ hi → P W →
      ∃ W2, for_loop body n i W = some W2 ∧ P W2 ∧
        W2.log = W.log ++ (List.range' i n).map ev := by
  intro n
  induction n with
  | zero =>
    intro i W _ hP
    exact ⟨W, rfl, hP, by simp⟩
  | succ n ih =>
    intro i W hle hP
    obtain ⟨W1, h1, hP1, hl1⟩ := hstep i W (by omega) hP
    obtain ⟨W2, h2, hP2, hl2⟩ := ih (i + 1) W1 (by omega) hP1
    refine ⟨W2, ?_, hP2, ?_⟩
    · simp only [for_loop, h1, Option.some_bind, h2]
    · rw [hl2, hl1, List.range'_succ]
      simp

theorem call_bp_error_step {F : Type} (ops : layer_ops F) (L no n : Nat) (e : error_ptr F)
    (contents : List F) (W : world F) (hW : frame L no W) (hn : n < L) :
    ∃ W2, call_annlayer_compute_bp_error ops n e contents W = some W2 ∧ frame L no W2 ∧
      W2.log = W.log ++ [ann_event.annlayer_compute_bp_error n e] := by
  obtain ⟨q2, hq⟩ := with_layer_some n (ops.annlayer_compute_bp_error contents) W.q
    (by rw [hW.1]; exact hn)
  obtain ⟨h1, h2, h3⟩ := with_layer_frame _ _ _ _ hq
  refine ⟨{ q := q2, log := W.log ++ [ann_event.annlayer_compute_bp_error n e] }, ?_,
    ⟨h1.trans hW.1, h2.trans hW.2.1, h3.trans hW.2.2⟩, rfl⟩
  simp only [call_annlayer_compute_bp_error, hq, Option.map_some']

theorem call_train_step {F : Type} (ops : layer_ops F) (L no i : Nat) (rate : F)
    (W : world F) (hW : frame L no W) (hi : i < L) :
    ∃ W2, call_annlayer_train ops rate i W = some W2 ∧ frame L no W2 ∧
      W2.log = W.log ++ [ann_event.annlayer_train i rate] := by
  obtain ⟨q2, hq⟩ := with_layer_some i (ops.annlayer_train rate) W.q
    (by rw [hW.1]; exact hi)
  obtain ⟨h1, h2, h3⟩ := with_layer_frame _ _ _ _ hq
  refine ⟨{ q := q2, log := W.log ++ [ann_event.annlayer_train i rate] }, ?_,
    ⟨h1.trans hW.1, h2.trans hW.2.1, h3.trans hW.2.2⟩, rfl⟩
  simp only [call_annlayer_train, hq, Option.map_some']

/-- Iteration i of the backward loop handles layer L-1-i, with the local error array
when i = 0 and with the error array of layer L-i otherwise. -/
theorem ann_train_bp_step_ok {F : Type} (ops : layer_ops F) (L no : Nat)
    (hM : L < UINT_RANGE) (error : List F) (i : Nat) (W : world F) (hi : i < L)
    (hW : frame L no W) :
    ∃ W2, ann_train_bp_step ops error i W = some W2 ∧ frame L no W2 ∧
      W2.log = W.log ++ [ann_event.annlayer_compute_bp_error (L - 1 - i)
        (if i = 0 then error_ptr.local_error error else error_ptr.layer_error (L - i))] := by
  have hn : usub (usub W.q.num_layers i) 1 = L - 1 - i := by
    rw [hW.2.1, usub_exact (by omega) hM, usub_exact (by omega) (by omega)]
    omega
  by_cases h0 : i = 0
  · subst h0
    have hstep := call_bp_error_step ops L no (L - 1 - 0) (error_ptr.local_error error)
      error W hW (by omega)
    simp only [ann_train_bp_step, hn, if_true]
    exact hstep
  · have hn1 : uadd (L - 1 - i) 1 = L - i := by
      rw [uadd_exact (by omega)]
      omega
    have hlt : L - i < W.q.layers.length := by rw [hW.1]; omega
    have hstep := call_bp_error_step ops L no (L - 1 - i) (error_ptr.layer_error (L - i))
      (W.q.layers[L - i]).error W hW (by omega)
    simp only [ann_train_bp_step, hn, h0, if_false, hn1, List.getElem?_eq_getElem hlt]
    exact hstep

theorem read_array_length {α : Type} (a : List α) (off n : Nat) (l : List α)
    (h : read_array a off n = some l) : l.length = n := by
  unfold read_array at h
  by_cases hb : off + n ≤ a.length
  · simp only [hb, if_true, Option.some.injEq] at h
    subst h
    simp only [List.length_take, List.length_drop]
    omega
  · simp [hb] at h

theorem read_array_head {α : Type} (a : List α) (n : Nat) (h : n ≤ a.length) :
    read_array a 0 n = some (a.take n) := by
  simp [read_array, h]

/-- The function ann_evaluate keeps the layer count and the sizes, and the output it
returns has num_outputs entries. -/
theorem ann_evaluate_frame {F : Type} (ops : layer_ops F) (L no : Nat) (W W1 : world F)
    (x pred : List F) (hW : frame L no W) (h : ann_evaluate ops W x = some (W1, pred)) :
    frame L no W1 ∧ pred.length = no := by
  simp only [ann_evaluate, Option.bind_eq_some, Option.map_eq_some'] at h
  obtain ⟨xs, -, buf, -, V, hloop, out, hout, heq⟩ := h
  simp only [Prod.mk.injEq] at heq
  obtain ⟨hV, ho⟩ := heq
  subst hV ho
  have hs : frame L no { q := { W.q with y_hat := buf }, log := W.log } :=
    ⟨hW.1, hW.2.1, hW.2.2⟩
  have hV : frame L no V :=
    for_loop_invariant (call_annlayer_evaluate ops) (frame L no)
      (fun i s s2 hs hb => call_evaluate_frame ops L no i s s2 hs hb) _ _ _ _ hs hloop
  exact ⟨hV, (read_array_length _ _ _ _ hout).trans hV.2.2⟩

/-! ## The state ann_train_bp leaves -/

theorem with_layer_eq_layer_step {F : Type} (i : Nat) (f : layer_mem F → layer_mem F)
    (q q2 : ann F) (h : with_layer i f q = some q2) : q2 = layer_step f i q := by
  unfold with_layer at h
  unfold layer_step
  cases hl : q.layers[i]? with
  | none => rw [hl] at h; simp at h
  | some l =>
    rw [hl] at h
    simp only [Option.some.injEq] at h
    exact h.symm

theorem call_evaluate_state {F : Type} (ops : layer_ops F) (i : Nat) (W W2 : world F)
    (h : call_annlayer_evaluate ops i W = some W2) :
    W2.q = layer_step ops.annlayer_evaluate i W.q := by
  unfold call_annlayer_evaluate at h
  cases hq : with_layer i ops.annlayer_evaluate W.q with
  | none => rw [hq] at h; simp at h
  | some q2 =>
    rw [hq] at h
    simp only [Option.map_some', Option.some.injEq] at h
    subst h
    exact with_layer_eq_layer_step _ _ _ _ hq

theorem call_bp_error_state {F : Type} (ops : layer_ops F) (n : Nat) (e : error_ptr F)
    (contents : List F) (W W2 : world F)
    (h : call_annlayer_compute_bp_error ops n e contents W = some W2) :
    W2.q = layer_step (ops.annlayer_compute_bp_error contents) n W.q := by
  unfold call_annlayer_compute_bp_error at h
  cases hq : with_layer n (ops.annlayer_compute_bp_error contents) W.q with
  | none => rw [hq] at h; simp at h
  | some q2 =>
    rw [hq] at h
    simp only [Option.map_some', Option.some.injEq] at h
    subst h
    exact with_layer_eq_layer_step _ _ _ _ hq

theorem call_train_state {F : Type} (ops : layer_ops F) (rate : F) (i : Nat)
    (W W2 : world F) (h : call_annlayer_train ops rate i W = some W2) :
    W2.q = layer_step (ops.annlayer_train rate) i W.q := by
  unfold call_annlayer_train at h
  cases hq : with_layer i (ops.annlayer_train rate) W.q with
  | none => rw [hq] at h; simp at h
  | some q2 =>
    rw [hq] at h
    simp only [Option.map_some', Option.some.injEq] at h
    subst h
    exact with_layer_eq_layer_step _ _ _ _ hq

/-- A loop of layer calls that returns leaves the network the layer steps give, taken
in the order of the iterations. -/
theorem for_loop_layer_state {F : Type} (call : Nat → world F → Option (world F))
    (f : layer_mem F → layer_mem F)
    (hcall : ∀ i W W2, call i W = some W2 → W2.q = layer_step f i W.q) :
    ∀ (n i : Nat) (W W2 : world F), for_loop call n i W = some W2 →
      W2.q = (List.range' i n).foldl (fun p j => layer_step f j p) W.q := by
  intro n
  induction n with
  | zero =>
    intro i W W2 h
    simp only [for_loop, Option.some.injEq] at h
    subst h
    rfl
  | succ n ih =>
    intro i W W2 h
    simp only [for_loop] at h
    cases hb : call i W with
    | none => rw [hb] at h; simp at h
    | some W1 =>
      rw [hb] at h
      simp only [Option.some_bind] at h
      rw [ih (i + 1) W1 W2 h, hcall i W W1 hb, List.range'_succ, List.foldl_cons]

/-- The network one iteration of the backward loop leaves: layer L-1-i has taken the
backward step on the output error when it is the last layer, and on the error array of
layer L-i otherwise. -/
theorem ann_train_bp_step_state {F : Type} (ops : layer_ops F) (L no : Nat)
    (hM : L < UINT_RANGE) (error : List F) (i : Nat) (W W2 : world F) (hi : i < L)
    (hW : frame L no W) (h : ann_train_bp_step ops error i W = some W2) :
    W2.q = layer_step
      (ops.annlayer_compute_bp_error
        (if L - 1 - i + 1 = L then error
         else ((W.q.layers[L - 1 - i + 1]?).map (fun l => l.error)).getD []))
      (L - 1 - i) W.q := by
  have hn : usub (usub W.q.num_layers i) 1 = L - 1 - i := by
    rw [hW.2.1, usub_exact (by omega) hM, usub_exact (by omega) (by omega)]
    omega
  by_cases h0 : i = 0
  · subst h0
    have hlast : L - 1 - 0 + 1 = L := by omega
    simp only [ann_train_bp_step, hn, if_true] at h
    rw [if_pos hlast]
    exact call_bp_error_state ops _ _ _ W W2 h
  · have hn1 : uadd (L - 1 - i) 1 = L - i := by
      rw [uadd_exact (by omega)]
      omega
    have hlt : L - i < W.q.layers.length := by rw [hW.1]; omega
    have hidx : L - 1 - i + 1 = L - i := by omega
    have hne : ¬ L - i = L := by omega
    simp only [ann_train_bp_step, hn, h0, if_false, hn1, List.getElem?_eq_getElem hlt] at h
    rw [hidx, if_neg hne, List.getElem?_eq_getElem hlt]
    exact call_bp_error_state ops _ _ _ W W2 h

/-- The network the last n iterations of the backward loop leave: the backward pass of
the specification over the layers n-1, ..., 0. -/
theorem backward_loop_state {F : Type} (ops : layer_ops F) (L no : Nat)
    (hM : L < UINT_RANGE) (error : List F) :
    ∀ (n i : Nat) (W W2 : world F), i + n = L → frame L no W →
      for_loop (ann_train_bp_step ops error) n i W = some W2 →
      W2.q = spec_backward ops error L n W.q := by
  intro n
  induction n with
  | zero =>
    intro i W W2 _ _ h
    simp only [for_loop, Option.some.injEq] at h
    subst h
    rfl
  | succ n ih =>
    intro i W W2 hin hW h
    obtain ⟨W1, h1, hW1, -⟩ := ann_train_bp_step_ok ops L no hM error i W (by omega) hW
    simp only [for_loop, h1, Option.some_bind] at h
    have hk : L - 1 - i = n := by omega
    have hs := ann_train_bp_step_state ops L no hM error i W W1 (by omega) hW h1
    rw [hk] at hs
    rw [ih (i + 1) W1 W2 (by omega) hW1 h, hs]
    rfl

theorem with_layer_steady {F : Type} (i : Nat) (f : layer_mem F → layer_mem F)
    (hkeep : ∀ m : layer_mem F, (f m).y_hat.length = m.y_hat.length) (q q2 : ann F)
    (h : with_layer i f q = some q2) :
    q2.num_nodes = q.num_nodes ∧ q2.num_inputs = q.num_inputs ∧
      q2.y_hat.length = q.y_hat.length := by
  unfold with_layer at h
  cases hl : q.layers[i]? with
  | none => rw [hl] at h; simp at h
  | some l =>
    rw [hl] at h
    simp only [Option.some.injEq] at h
    subst h
    exact ⟨rfl, rfl, hkeep _⟩

/-- One call of annlayer_evaluate on a layer of the network returns and keeps what a
forward pass leaves unchanged, provided the operation keeps the size of the buffer. -/
theorem call_evaluate_step {F : Type} (ops : layer_ops F)
    (hkeep : ∀ m : layer_mem F, (ops.annlayer_evaluate m).y_hat.length = m.y_hat.length)
    (L no nn ni len i : Nat) (W : world F) (hW : steady L no nn ni len W) (hi : i < L) :
    ∃ W2, call_annlayer_evaluate ops i W = some W2 ∧ steady L no nn ni len W2 ∧
      W2.log = W.log ++ [ann_event.annlayer_evaluate i] := by
  obtain ⟨hf, hnn, hni, hlen⟩ := hW
  obtain ⟨q2, hq⟩ := with_layer_some i ops.annlayer_evaluate W.q (by rw [hf.1]; exact hi)
  obtain ⟨h1, h2, h3⟩ := with_layer_frame _ _ _ _ hq
  obtain ⟨h4, h5, h6⟩ := with_layer_steady _ _ hkeep _ _ hq
  refine ⟨{ q := q2, log := W.log ++ [ann_event.annlayer_evaluate i] }, ?_,
    ⟨⟨h1.trans hf.1, h2.trans hf.2.1, h3.trans hf.2.2⟩, h4.trans hnn, h5.trans hni,
      h6.trans hlen⟩, rfl⟩
  simp only [call_annlayer_evaluate, hq, Option.map_some']

/-- The function ann_evaluate returns on a network with one layer object per layer, an
input of at least num_inputs entries and a buffer that holds the input and the output
region, provided annlayer_evaluate keeps the size of the buffer; the state it leaves
is the forward pass of the specification and its record is one evaluation per layer. -/
theorem ann_evaluate_returns {F : Type} (ops : layer_ops F)
    (hkeep : ∀ m : layer_mem F, (ops.annlayer_evaluate m).y_hat.length = m.y_hat.length)
    (W : world F) (x : List F) (hL : W.q.layers.length = W.q.num_layers)
    (hx : W.q.num_inputs ≤ x.length) (hbuf : W.q.num_inputs ≤ W.q.y_hat.length)
    (hout : usub (uadd W.q.num_nodes W.q.num_inputs) W.q.num_outputs + W.q.num_outputs
      ≤ W.q.y_hat.length) :
    ∃ (W1 : world F) (pred : List F), ann_evaluate ops W x = some (W1, pred) ∧
      W1.q = spec_forward ops W.q x ∧
      W1.log = W.log ++ (List.range W.q.num_layers).map ann_event.annlayer_evaluate := by
  have hread : read_array x 0 W.q.num_inputs = some (x.take W.q.num_inputs) :=
    read_array_head x _ hx
  have hxs : (x.take W.q.num_inputs).length = W.q.num_inputs := by
    simp [List.length_take, hx]
  have hwrite : write_array W.q.y_hat 0 (x.take W.q.num_inputs)
      = some (x.take W.q.num_inputs ++ W.q.y_hat.drop W.q.num_inputs) := by
    simp only [write_array, Nat.zero_add, hxs, hbuf, if_true, List.take_zero,
      List.nil_append]
  have hlen0 : (x.take W.q.num_inputs ++ W.q.y_hat.drop W.q.num_inputs).length
      = W.q.y_hat.length := by
    simp only [List.length_append, hxs, List.length_drop]
    omega
  have hW0 : steady W.q.num_layers W.q.num_outputs W.q.num_nodes W.q.num_inputs
      W.q.y_hat.length
      { q := { W.q with y_hat := x.take W.q.num_inputs ++ W.q.y_hat.drop W.q.num_inputs },
        log := W.log } :=
    ⟨⟨hL, rfl, rfl⟩, rfl, rfl, hlen0⟩
  obtain ⟨W1, hloop, hW1, hlog⟩ := for_loop_log (call_annlayer_evaluate ops)
    ann_event.annlayer_evaluate
    (steady W.q.num_layers W.q.num_outputs W.q.num_nodes W.q.num_inputs W.q.y_hat.length)
    W.q.num_layers
    (fun i V hi hV => call_evaluate_step ops hkeep _ _ _ _ _ i V hV hi)
    W.q.num_layers 0 _ (by omega) hW0
  obtain ⟨⟨-, -, hno⟩, hnn, hni, hlen⟩ := hW1
  have hstate := for_loop_layer_state (call_annlayer_evaluate ops) ops.annlayer_evaluate
    (fun i V V2 h => call_evaluate_state ops i V V2 h) _ _ _ _ hloop
  have hin : usub (uadd W.q.num_nodes W.q.num_inputs) W.q.num_outputs + W.q.num_outputs
      ≤ W1.q.y_hat.length := by rw [hlen]; exact hout
  refine ⟨W1, (W1.q.y_hat.drop (usub (uadd W.q.num_nodes W.q.num_inputs)
      W.q.num_outputs)).take W.q.num_outputs, ?_, ?_, ?_⟩
  · have hfin : read_array W1.q.y_hat
        (usub (uadd W1.q.num_nodes W1.q.num_inputs) W1.q.num_outputs) W1.q.num_outputs
        = some ((W1.q.y_hat.drop (usub (uadd W.q.num_nodes W.q.num_inputs)
            W.q.num_outputs)).take W.q.num_outputs) := by
      rw [hnn, hni, hno]
      simp only [read_array, hin, if_true]
    simp only [ann_evaluate, hread, Option.some_bind, hwrite, hloop, hfin, Option.map_some']
  · rw [hstate, ← List.range_eq_range']
    rfl
  · rw [hlog, ← List.range_eq_range']

theorem store_array_length {α : Type} (vals : List α) :
    ∀ (buf : List α) (off : Nat), (store_array buf off vals).length = buf.length := by
  induction vals with
  | nil => intro buf off; rfl
  | cons v vs ih =>
    intro buf off
    simp only [store_array, ih, List.length_set]

theorem rat_layer_ops_in_place_keeps_size (m : layer_mem ℚ) :
    (rat_layer_ops_in_place.annlayer_evaluate m).y_hat.length = m.y_hat.length :=
  store_array_length _ _ _

/-- The two structures the specification names: [1, 1] gives 4 weights and 2 nodes,
[2, 3, 1] gives 17 weights and 6 nodes, with a 3-entry and an 8-entry activation
buffer. -/
theorem ann_create_small_structures :
    ((ann_create rat_heap [1, 1]).network.map
        (fun q => (q.num_weights, q.num_nodes, q.y_hat.length))) = some (4, 2, 3) ∧
    ((ann_create rat_heap [2, 3, 1]).network.map
        (fun q => (q.num_weights, q.num_nodes, q.y_hat.length))) = some (17, 6, 8) := by
  decide

/-! ## The claims -/

/-- C1 (the code at a failing input): for the structure [1, 65535, 65534] ann_create
returns a network whose stored num_weights is 0, while the closed form
2*n_0 + sum (n_{i-1}+1)*n_i is 4294967296; the 32-bit sum wrapped around. The node
count 131070 is stored as the closed form gives it. -/
theorem ann_create_num_weights_wraps :
    ((ann_create rat_heap [1, 65535, 65534]).network.map
        (fun q => (q.num_weights, q.num_nodes, q.num_inputs, q.num_outputs)))
      = some (0, 131070, 1, 65534) ∧
    spec_num_weights [1, 65535, 65534] = 4294967296 ∧
    spec_num_nodes [1, 65535, 65534] = 131070 := by
  decide

/-- C2 (the code at a failing input): the structure [1, 65535, 65534] has three layers,
no empty layer and a weight count of 4294967296, far above the cap of 1024, and yet
ann_create exits with no error: it returns a network and goes on to allocate the
weight vector (with 0 entries), the gradient, the activation buffer and the layers. -/
theorem ann_create_accepts_above_cap :
    LIQUID_ANN_MAX_NETWORK_SIZE < spec_num_weights [1, 65535, 65534] ∧
    ((ann_create rat_heap [1, 65535, 65534]).network).isSome = true ∧
    (ann_create rat_heap [1, 65535, 65534]).mallocs
      = [ann_malloc.ann_struct, ann_malloc.structure_array 3, ann_malloc.weights 0,
         ann_malloc.gradient 0, ann_malloc.activation_buffer 131071,
         ann_malloc.layer_array 3] := by
  decide

/-- C3: when the structure has fewer than 2 layers, or has 2 or more layers one of which
is empty, ann_create exits with a configuration error (too few layers, respectively the
index of an empty layer), returns no network, and has called malloc not once. -/
theorem ann_create_rejects_invalid {F : Type} [FloatOps F] (heap : Nat → F)
    (s : List Nat) (h : s.length < 2 ∨ 0 ∈ s) :
    (ann_create heap s).mallocs = [] ∧
    (ann_create heap s).network = none ∧
    ((ann_create heap s).result = Except.error ann_error.too_few_layers ∨
      ∃ i, i < s.length ∧ s[i]? = some 0 ∧
        (ann_create heap s).result = Except.error (ann_error.layer_has_no_nodes i)) := by
  by_cases hlen : s.length < 2
  · simp [ann_create, ann_create_result.network, hlen]
  · have h0 : 0 ∈ s := h.resolve_left hlen
    cases hfi : s.findIdx? (fun n => decide (n < 1)) with
    | none =>
      rw [List.findIdx?_eq_none_iff] at hfi
      have := hfi 0 h0
      simp at this
    | some i =>
      have hi := hfi
      rw [List.findIdx?_eq_some_iff_getElem] at hi
      obtain ⟨hlt, hp, -⟩ := hi
      have hz : s[i] = 0 := by
        simp only [decide_eq_true_eq] at hp
        omega
      have hget : s[i]? = some 0 := by
        rw [List.getElem?_eq_getElem hlt, hz]
      simp only [ann_create, ann_create_result.network, hlen, if_false, hfi]
      exact ⟨trivial, trivial, Or.inr ⟨i, hlt, hget, rfl⟩⟩

/-- The structure [3, 0, 2], whose second layer is empty, is rejected before any
allocation. -/
theorem ann_create_rejects_invalid_witness :
    ((ann_create rat_heap [3, 0, 2]).mallocs = [] ∧
      (ann_create rat_heap [3, 0, 2]).network = none ∧
      ((ann_create rat_heap [3, 0, 2]).result = Except.error ann_error.too_few_layers ∨
        ∃ i, i < [3, 0, 2].length ∧ [3, 0, 2][i]? = some 0 ∧
          (ann_create rat_heap [3, 0, 2]).result
            = Except.error (ann_error.layer_has_no_nodes i))) :=
  ann_create_rejects_invalid rat_heap [3, 0, 2] (Or.inr (by decide))

/-- C4 (the code at a failing input): for the structure [1, 65535, 65534] the network
returned has num_weights = 0 and an empty weight vector, while the three layers are
handed the offsets 0, 2 and 131072 with slice lengths 2, 131070 and 4294836224: no
slice lies inside [0, num_weights) and the lengths sum to 4294967296, not to 0. -/
theorem ann_create_slices_outside_weights :
    ((ann_create rat_heap [1, 65535, 65534]).network.map
        (fun q => (q.num_weights, q.w.length,
          q.layers.map (fun l => (l.w, (l.num_inputs + 1) * l.num_outputs)))))
      = some (0, 0, [(0, 2), (2, 131070), (131072, 4294836224)]) := by
  decide

/-- C5 (the code at a failing input): for the structure [2147483648, 2] ann_create
returns a network (its 32-bit weight count wraps to 2) with num_inputs = 2147483648 and
num_nodes = 2147483650 whose activation buffer has 2 entries; layer 0 writes at offset
2147483648 and layer 1, which reads there, writes at offset 0, where layer 0 reads. -/
theorem ann_create_buffer_wraps :
    ((ann_create rat_heap [2147483648, 2]).network.map
        (fun q => (q.num_weights, q.num_inputs, q.num_nodes, q.y_hat.length)))
      = some (2, 2147483648, 2147483650, 2) ∧
    ((ann_create rat_heap [2147483648, 2]).network.map
        (fun q => q.layers.map (fun l => (l.x, l.y, l.num_outputs))))
      = some [(0, 2147483648, 2147483648), (2147483648, 0, 2)] := by
  decide

set_option maxRecDepth 100000 in
/-- C7 (counterexample): on the network ann_create returns for [1, 1], with the single
pattern x = [1], y = [0], the callback applied to the candidate [0, 0, 0, 0] returns
1/41, the error of the network under the weights it holds, whereas the error of the
network with the candidate installed as its weight vector is 0. -/
theorem ann_ga_search_callback_not_installed :
    ((ann_ga_search_callback rat_layer_ops { x := [1], y := [0], num_patterns := 1 }
        [0, 0, 0, 0] 4 { q := rat_network [1, 1], log := [] }).map Prod.snd) = some (1 / 41) ∧
    ((ann_compute_rmse rat_layer_ops
        { q := { rat_network [1, 1] with w := [0, 0, 0, 0] }, log := [] }
        [1] [0] 1).map Prod.snd) = some 0 := by
  with_unfolding_all decide

/-- C7 (amended): for every network state, pattern set, candidate vector v and
parameter count, ann_ga_search_callback returns what ann_compute_rmse returns for the
network with the weights it currently holds; the candidate is not read, so any two
candidates get the same value in the same state. -/
theorem ann_ga_search_callback_scores_current_weights {F : Type} [FloatOps F]
    (ops : layer_ops F) (obj : ann_ga_search_object F) (v : List F) (n : Nat)
    (W : world F) :
    ann_ga_search_callback ops obj v n W
        = ann_compute_rmse ops W obj.x obj.y obj.num_patterns ∧
    ∀ (v2 : List F) (n2 : Nat),
      ann_ga_search_callback ops obj v2 n2 W = ann_ga_search_callback ops obj v n W :=
  ⟨rfl, fun _ _ => rfl⟩

/-- C9: for every search engine, layer operations, network state, pattern set, tolerance
_emax and bound _nmax, ann_train ends in exactly the state ann_train_ga ends in (and
fails exactly when it fails); the record of calls is part of the state, so none of the
statements after the return (opening the debug file, the epoch loop with its
ann_train_bp calls, the closing output) is executed, and the result is the same for any
other _emax and _nmax. -/
theorem ann_train_eq_ann_train_ga {F G : Type} [FloatOps F] (gops : ga_ops F G)
    (ops : layer_ops F) (W : world F) (x y : List F) (num_patterns : Nat) (emax : F)
    (nmax : Nat) :
    ann_train gops ops W x y num_patterns emax nmax
        = ann_train_ga gops ops W x y num_patterns ∧
    ∀ (emax2 : F) (nmax2 : Nat),
      ann_train gops ops W x y num_patterns emax2 nmax2
        = ann_train gops ops W x y num_patterns emax nmax := by
  have key : ∀ (e : F) (k : Nat),
      ann_train gops ops W x y num_patterns e k
        = ann_train_ga gops ops W x y num_patterns := by
    intro e k
    simp only [ann_train, flow.step, Option.some_bind]
    cases ann_train_ga gops ops W x y num_patterns with
    | none => rfl
    | some V => rfl
  exact ⟨key emax nmax, fun e k => (key e k).trans (key emax nmax).symm⟩

/-- C8: let ann_create return a network for a structure within the cap, and take any
network with that wiring (whatever its weights, layer errors and buffer contents), any
layer evaluation that fills its whole output region as a function of the layer, its
weight slice and its input region and changes nothing else, and any input x with at
least num_inputs entries. Then ann_evaluate returns an output and leaves the weights as
they were; called again on x from the state the first call left, it returns the same
output; and called on x from any other contents of the activation buffer, it returns
the same output as well. -/
theorem ann_evaluate_deterministic {F : Type} [FloatOps F] (ops : layer_ops F)
    (hops : evaluates_regionwise ops) (heap : Nat → F) (s : List Nat)
    (hlen : 2 ≤ s.length) (hpos : ∀ n ∈ s, 1 ≤ n)
    (hcap : spec_num_weights s ≤ LIQUID_ANN_MAX_NETWORK_SIZE) :
    ∃ q0, (ann_create heap s).result = Except.ok q0 ∧
      ∀ q : ann F, same_wiring q0 q →
      ∀ (log : List (ann_event F)) (x : List F), q.num_inputs ≤ x.length →
        ∃ (W1 : world F) (out : List F),
          ann_evaluate ops { q := q, log := log } x = some (W1, out) ∧
          W1.q.w = q.w ∧
          (∃ W2, ann_evaluate ops W1 x = some (W2, out)) ∧
          ∀ (buf : List F) (log2 : List (ann_event F)), buf.length = q.y_hat.length →
            ∃ W3, ann_evaluate ops { q := { q with y_hat := buf }, log := log2 } x
              = some (W3, out) := by
  obtain ⟨q0, hq0, hw0⟩ := ann_create_wired heap s hlen hpos hcap
  refine ⟨q0, hq0, ?_⟩
  intro q hsw log x hx
  have hw := ann_wired_of_same_wiring q0 q hsw hw0
  obtain ⟨bufF, out, hlenF, H⟩ := ann_evaluate_of_wired ops hops q hw x hx
  obtain ⟨log1, h1⟩ := H q.y_hat log rfl
  obtain ⟨log2, h2⟩ := H bufF log1 hlenF
  refine ⟨{ q := { q with y_hat := bufF }, log := log1 }, out, h1, rfl, ⟨_, h2⟩, ?_⟩
  intro buf lg hb
  obtain ⟨log3, h3⟩ := H buf lg hb
  exact ⟨_, h3⟩

/-- Evaluation is deterministic on the network built for [2, 3, 1], with the layer
evaluation of the rational instance. -/
theorem ann_evaluate_deterministic_witness :
    ∃ q0, (ann_create rat_heap [2, 3, 1]).result = Except.ok q0 ∧
      ∀ q : ann ℚ, same_wiring q0 q →
      ∀ (log : List (ann_event ℚ)) (x : List ℚ), q.num_inputs ≤ x.length →
        ∃ (W1 : world ℚ) (out : List ℚ),
          ann_evaluate rat_layer_ops { q := q, log := log } x = some (W1, out) ∧
          W1.q.w = q.w ∧
          (∃ W2, ann_evaluate rat_layer_ops W1 x = some (W2, out)) ∧
          ∀ (buf : List ℚ) (log2 : List (ann_event ℚ)), buf.length = q.y_hat.length →
            ∃ W3, ann_evaluate rat_layer_ops { q := { q with y_hat := buf }, log := log2 } x
              = some (W3, out) :=
  ann_evaluate_deterministic rat_layer_ops rat_layer_ops_regionwise rat_heap [2, 3, 1]
    (by decide) (by decide) (by decide)

/-- C10: take a network with one layer object per layer (fewer than 2^32 of them), a
training pair (x, y) with at least num_inputs inputs and num_outputs targets, an
activation buffer that holds the input and the output region, and layer operations
whose evaluation keeps the size of that buffer. Then ann_train_bp returns, and the
network it leaves is the one the specification describes: after the forward pass, which
gives the prediction pred, the layers L-1, L-2, ..., 0 take the backward step in that
order, layer L-1 on the error vector error[i] = y[i] - pred[i] and every layer n < L-1
on the error array layer n+1 holds at that moment, and then the layers 0, 1, ..., L-1
take the weight update in that order with the rate 0.01. The calls it has made are
exactly these, once per layer and in this order, each backward call with the pointer
named (the local array, or the error array of layer n+1 with n+1 < L); no layer index
outside 0 .. L-1 is read. -/
theorem ann_train_bp_call_order {F : Type} [FloatOps F] (ops : layer_ops F) (W : world F)
    (x y : List F) (hL : W.q.layers.length = W.q.num_layers)
    (hM : W.q.num_layers < UINT_RANGE) (hx : W.q.num_inputs ≤ x.length)
    (hy : W.q.num_outputs ≤ y.length) (hbuf : W.q.num_inputs ≤ W.q.y_hat.length)
    (hout : usub (uadd W.q.num_nodes W.q.num_inputs) W.q.num_outputs + W.q.num_outputs
      ≤ W.q.y_hat.length)
    (hkeep : ∀ m : layer_mem F, (ops.annlayer_evaluate m).y_hat.length = m.y_hat.length) :
    ∃ (W1 : world F) (pred : List F) (W2 : world F),
      ann_evaluate ops W x = some (W1, pred) ∧
      pred.length = W.q.num_outputs ∧
      W1.q = spec_forward ops W.q x ∧
      ann_train_bp ops W x y = some W2 ∧
      W2.q = spec_update ops (FloatOps.lit (1 / 100)) W.q.num_layers
        (spec_backward ops (List.zipWith FloatOps.sub (y.take W.q.num_outputs) pred)
          W.q.num_layers W.q.num_layers W1.q) ∧
      W2.log = W.log
        ++ (List.range W.q.num_layers).map ann_event.annlayer_evaluate
        ++ (List.range W.q.num_layers).reverse.map (fun n =>
              ann_event.annlayer_compute_bp_error n
                (if n + 1 = W.q.num_layers then
                  error_ptr.local_error
                    (List.zipWith FloatOps.sub (y.take W.q.num_outputs) pred)
                else error_ptr.layer_error (n + 1)))
        ++ (List.range W.q.num_layers).map (fun i =>
              ann_event.annlayer_train i (FloatOps.lit (1 / 100))) := by
  obtain ⟨W1, pred, h1, hfwd, hlog1⟩ := ann_evaluate_returns ops hkeep W x hL hx hbuf hout
  have hW : frame W.q.num_layers W.q.num_outputs W := ⟨hL, rfl, rfl⟩
  obtain ⟨hW1, hpred⟩ := ann_evaluate_frame ops _ _ W W1 x pred hW h1
  generalize hLdef : W.q.num_layers = L at *
  generalize hnodef : W.q.num_outputs = no at *
  have hry : read_array y 0 no = some (y.take no) := read_array_head y no hy
  have hrp : read_array pred 0 no = some pred := by
    rw [read_array_head pred no (by omega), List.take_of_length_le (by omega)]
  obtain ⟨W2, hb, hW2, hlog2⟩ := for_loop_log
    (ann_train_bp_step ops (List.zipWith FloatOps.sub (y.take no) pred))
    (fun i => ann_event.annlayer_compute_bp_error (L - 1 - i)
      (if i = 0 then error_ptr.local_error (List.zipWith FloatOps.sub (y.take no) pred)
       else error_ptr.layer_error (L - i)))
    (frame L no) L
    (fun i V hi hV => ann_train_bp_step_ok ops L no hM _ i V hi hV) L 0 W1 (by omega) hW1
  obtain ⟨W3, ht, -, hlog3⟩ := for_loop_log
    (call_annlayer_train ops (FloatOps.lit (1 / 100)))
    (fun i => ann_event.annlayer_train i (FloatOps.lit (1 / 100)))
    (frame L no) L
    (fun i V hi hV => call_train_step ops L no i _ V hV hi) L 0 W2 (by omega) hW2
  have hq2 : W2.q = spec_backward ops (List.zipWith FloatOps.sub (y.take no) pred) L L W1.q :=
    backward_loop_state ops L no hM _ L 0 W1 W2 (by omega) hW1 hb
  have hq3 : W3.q = spec_update ops (FloatOps.lit (1 / 100)) L W2.q := by
    rw [for_loop_layer_state (call_annlayer_train ops (FloatOps.lit (1 / 100)))
      (ops.annlayer_train (FloatOps.lit (1 / 100)))
      (fun i V V2 h => call_train_state ops _ i V V2 h) _ _ _ _ ht,
      ← List.range_eq_range']
    rfl
  have hrev : (List.range L).reverse.map (fun n =>
        ann_event.annlayer_compute_bp_error n
          (if n + 1 = L then
            error_ptr.local_error (List.zipWith FloatOps.sub (y.take no) pred)
          else error_ptr.layer_error (n + 1)))
      = (List.range' 0 L).map (fun i => ann_event.annlayer_compute_bp_error (L - 1 - i)
          (if i = 0 then error_ptr.local_error (List.zipWith FloatOps.sub (y.take no) pred)
           else error_ptr.layer_error (L - i))) := by
    rw [List.range_eq_range', List.reverse_range', List.map_map, ← List.range_eq_range']
    apply List.map_congr_left
    intro i hi
    have hi2 : i < L := List.mem_range.mp hi
    have e2 : 0 + L - 1 - i = L - 1 - i := by omega
    have e1 : L - 1 - i + 1 = L - i := by omega
    simp only [Function.comp]
    rw [e2, e1]
    by_cases h0 : i = 0
    · subst h0; simp
    · have : L - i ≠ L := by omega
      simp [h0, this]
  refine ⟨W1, pred, W3, h1, hpred, hfwd, ?_, ?_, ?_⟩
  · simp only [ann_train_bp, h1, Option.some_bind, hW1.2.2, hry, hrp, hW1.2.1, hb,
      hW2.2.1, ht]
  · rw [hq3, hq2]
  · rw [hlog3, hlog2, hlog1, hrev, List.range_eq_range']

/-- One training step on the network built for [2, 3, 1], with the pair x = [1, 2],
y = [1] and the layer operations of the rational instance that store in place. -/
theorem ann_train_bp_call_order_witness :
    ∃ (W1 : world ℚ) (pred : List ℚ) (W2 : world ℚ),
      ann_evaluate rat_layer_ops_in_place { q := rat_network [2, 3, 1], log := [] } [1, 2]
        = some (W1, pred) ∧
      pred.length = (rat_network [2, 3, 1]).num_outputs ∧
      W1.q = spec_forward rat_layer_ops_in_place (rat_network [2, 3, 1]) [1, 2] ∧
      ann_train_bp rat_layer_ops_in_place { q := rat_network [2, 3, 1], log := [] }
        [1, 2] [1] = some W2 ∧
      W2.q = spec_update rat_layer_ops_in_place (FloatOps.lit (1 / 100))
        (rat_network [2, 3, 1]).num_layers
        (spec_backward rat_layer_ops_in_place
          (List.zipWith FloatOps.sub
            (([1] : List ℚ).take (rat_network [2, 3, 1]).num_outputs) pred)
          (rat_network [2, 3, 1]).num_layers (rat_network [2, 3, 1]).num_layers W1.q) ∧
      W2.log = ([] : List (ann_event ℚ))
        ++ (List.range (rat_network [2, 3, 1]).num_layers).map ann_event.annlayer_evaluate
        ++ (List.range (rat_network [2, 3, 1]).num_layers).reverse.map (fun n =>
              ann_event.annlayer_compute_bp_error n
                (if n + 1 = (rat_network [2, 3, 1]).num_layers then
                  error_ptr.local_error
                    (List.zipWith FloatOps.sub
                      (([1] : List ℚ).take (rat_network [2, 3, 1]).num_outputs) pred)
                else error_ptr.layer_error (n + 1)))
        ++ (List.range (rat_network [2, 3, 1]).num_layers).map (fun i =>
              ann_event.annlayer_train i (FloatOps.lit (1 / 100))) :=
  ann_train_bp_call_order rat_layer_ops_in_place { q := rat_network [2, 3, 1], log := [] }
    [1, 2] [1] (by decide) (by decide) (by decide) (by decide) (by decide) (by decide)
    rat_layer_ops_in_place_keeps_size

end LiquidAnn
